import Mathlib

/-!
Shallow embedding of the data-refinery pipeline (src/): the JSON value
model, the regex repair chain of src/agents/layout_agent.py, a strict
JSON parser/printer standing for Python's json.loads / json.dump, the
PipelineState and StateManager of src/state_manager.py, the orchestrator
of src/orchestrator.py, the transport client of src/regolo_client.py and
the event-driven runner of src/pipeline_runner.py.  Python strings are
List Char; Python dicts are association lists with string keys; blocking
sleeps and emitted progress messages are recorded in explicit traces.
-/

namespace DataRefinery

/- Character constants, named where a literal would be awkward. -/

def bslash : Char := Char.ofNat 92

def dquote : Char := Char.ofNat 34

def squote : Char := Char.ofNat 39

def btick : Char := Char.ofNat 96

def obrace : Char := Char.ofNat 123

def cbrace : Char := Char.ofNat 125

def obrack : Char := Char.ofNat 91

def cbrack : Char := Char.ofNat 93

/-- Python regex whitespace (backslash-s) and str.strip whitespace,
restricted to the ASCII range: space, tab, newline, carriage return,
vertical tab, form feed.  Exotic unicode whitespace is outside the
embedding. -/
def isSpace (c : Char) : Bool :=
  c == ' ' || c == '\t' || c == '\n' || c == '\r' ||
  c == Char.ofNat 11 || c == Char.ofNat 12

/-- The whitespace accepted between tokens by Python's json module. -/
def isJsonWs (c : Char) : Bool :=
  c == ' ' || c == '\t' || c == '\n' || c == '\r'

/-- Python str.strip(): drop leading and trailing whitespace. -/
def stripL (cs : List Char) : List Char :=
  ((cs.dropWhile isSpace).reverse.dropWhile isSpace).reverse

/-- JSON values as produced by Python's json.loads.  Numbers are
modelled on the integer fragment only: float-valued literals (fraction
or exponent parts) carry IEEE semantics and are outside the embedding;
the parser below rejects them rather than misrepresenting them. -/
inductive J where
  | null : J
  | bool (b : Bool) : J
  | num (n : Int) : J
  | str (s : List Char) : J
  | arr (elems : List J) : J
  | obj (members : List (List Char × J)) : J

instance instNonemptyJ : Nonempty J := ⟨J.null⟩

/-- Python truthiness of a JSON value: None, False, 0, the empty string,
the empty list and the empty dict are falsy. -/
def truthy : J → Bool
  | J.null => false
  | J.bool b => b
  | J.num n => n != 0
  | J.str s => !s.isEmpty
  | J.arr l => !l.isEmpty
  | J.obj m => !m.isEmpty

/-- Association-list lookup, first match wins (Python dicts never hold
duplicate keys, so the first match is the only one). -/
def lookupKey (k : List Char) : List (List Char × J) → Option J
  | [] => none
  | (k2, v) :: rest => if k2 = k then some v else lookupKey k rest

/-- Python dict.get(key) on a JSON value, None when the key is absent.
Calling .get on a non-dict raises AttributeError in Python; call sites
below reach this with dict arguments only (see the envOk hypotheses),
and the non-dict branch returns none. -/
def pyGetOpt (d : J) (k : List Char) : Option J :=
  match d with
  | J.obj ms => lookupKey k ms
  | _ => none

/-- Python dict.get(key, default). -/
def pyGetD (d : J) (k : List Char) (default : J) : J :=
  (pyGetOpt d k).getD default

/-- Python truthiness of an optional value (a missing key gives None,
which is falsy). -/
def truthyOpt : Option J → Bool
  | none => false
  | some v => truthy v

/-!
## The regex repair chain of layout_agent.repair_json

Each re.sub line of the source is one scanner below.  The scanners walk
the text left to right exactly as re.sub does: the leftmost match is
replaced and scanning resumes after the matched span (a lookahead is not
consumed).  Scanners that re-enter themselves on a suffix produced by a
match helper carry an explicit fuel argument; the wrappers pass the text
length, which every step strictly exceeds, so the zero-fuel branch is
never taken on the wrappers' calls.
-/

/-- Line-comment removal, text = re.sub of two slashes followed by the
rest of the line with the MULTILINE flag.  The Bool is the in-comment
state: a pair of slashes anywhere (strings included — the regex is not
string-aware) starts a comment that runs to the newline, which itself
is kept. -/
def rlcF : Nat → Bool → List Char → List Char
  | 0, _, cs => cs
  | fuel + 1, false, cs =>
    match cs with
    | [] => []
    | a :: rest =>
      if a = '/' then
        match rest with
        | b :: r2 => if b = '/' then rlcF fuel true r2 else a :: rlcF fuel false rest
        | [] => a :: rlcF fuel false rest
      else a :: rlcF fuel false rest
  | fuel + 1, true, cs =>
    match cs with
    | [] => []
    | a :: rest => if a = '\n' then '\n' :: rlcF fuel false rest else rlcF fuel true rest

def removeLineComments (cs : List Char) : List Char := rlcF cs.length false cs

/-- After an opening block-comment marker: drop through the first
closing marker, returning the remainder, or none when no closing marker
follows (the regex then has no match starting at that opening marker,
nor at any later one). -/
def cutToClose : List Char → Option (List Char)
  | [] => none
  | a :: rest =>
    if a = '*' then
      match rest with
      | b :: r2 => if b = '/' then some r2 else cutToClose rest
      | [] => none
    else cutToClose rest

/-- Block-comment removal, text = re.sub of slash-star .. star-slash,
non-greedy, with the DOTALL flag. -/
def rbcF : Nat → List Char → List Char
  | 0, cs => cs
  | fuel + 1, cs =>
    match cs with
    | [] => []
    | a :: rest =>
      if a = '/' then
        match rest with
        | b :: r2 =>
          if b = '*' then
            match cutToClose r2 with
            | some r3 => rbcF fuel r3
            | none => a :: b :: r2
          else a :: rbcF fuel rest
        | [] => a :: rbcF fuel rest
      else a :: rbcF fuel rest

def removeBlockComments (cs : List Char) : List Char := rbcF cs.length cs

/-- Helper for the trailing-separator pass: from a comma, skip regex
whitespace and demand a closing brace or bracket. -/
def matchWsBracket (cs : List Char) : Option (Char × List Char) :=
  match cs.dropWhile isSpace with
  | b :: after => if b = cbrace ∨ b = cbrack then some (b, after) else none
  | [] => none

/-- Trailing-separator pass: re.sub of a comma, optional whitespace and
a closing brace/bracket, replaced by the closing character alone. -/
def rtcF : Nat → List Char → List Char
  | 0, cs => cs
  | fuel + 1, cs =>
    match cs with
    | [] => []
    | c :: rest =>
      if c = ',' then
        match matchWsBracket rest with
        | some (b, after) => b :: rtcF fuel after
        | none => c :: rtcF fuel rest
      else c :: rtcF fuel rest

def removeTrailingCommas (cs : List Char) : List Char := rtcF cs.length cs

/-- Helper for the leading-separator pass: after an opening brace or
bracket, skip regex whitespace and demand a comma. -/
def matchWsComma (cs : List Char) : Option (List Char) :=
  match cs.dropWhile isSpace with
  | c :: after => if c = ',' then some after else none
  | [] => none

/-- Leading-separator pass: re.sub of an opening brace/bracket, optional
whitespace and a comma, replaced by the opening character alone. -/
def rlsF : Nat → List Char → List Char
  | 0, cs => cs
  | fuel + 1, cs =>
    match cs with
    | [] => []
    | c :: rest =>
      if c = obrace ∨ c = obrack then
        match matchWsComma rest with
        | some after => c :: rlsF fuel after
        | none => c :: rlsF fuel rest
      else c :: rlsF fuel rest

def removeLeadingCommas (cs : List Char) : List Char := rlsF cs.length cs

/-- Helper for the dangling-key pass: after a newline, skip whitespace,
demand a quoted key, optional whitespace, a colon, optional whitespace,
and look ahead (without consuming) at a closing brace/bracket.  Returns
the remainder starting at that closing character. -/
def matchDangling (cs : List Char) : Option (List Char) :=
  match cs.dropWhile isSpace with
  | q :: a1 =>
    if q = dquote then
      match a1.dropWhile (fun c => !(c == dquote)) with
      | _ :: a2 =>
        match a2.dropWhile isSpace with
        | d :: a4 =>
          if d = ':' then
            match a4.dropWhile isSpace with
            | b :: a5 => if b = cbrace ∨ b = cbrack then some (b :: a5) else none
            | [] => none
          else none
        | [] => none
      | [] => none
    else none
  | [] => none

/-- Dangling-key pass: re.sub of newline, whitespace, a quoted key, a
colon and whitespace, followed (lookahead) by a closing brace/bracket,
removed entirely.  Scanning resumes at the closing character. -/
def rdkF : Nat → List Char → List Char
  | 0, cs => cs
  | fuel + 1, cs =>
    match cs with
    | [] => []
    | c :: rest =>
      if c = '\n' then
        match matchDangling rest with
        | some after => rdkF fuel after
        | none => c :: rdkF fuel rest
      else c :: rdkF fuel rest

def removeDanglingKeys (cs : List Char) : List Char := rdkF cs.length cs

/-- Helper for the double-quote normalization pass: after an opening
quote, read the key to its closing quote, skip whitespace, demand a
colon, skip whitespace, demand a quoted value, and return key, value
and the remainder after the value's closing quote. -/
def matchQuoteNorm (cs : List Char) :
    Option (List Char × List Char × List Char) :=
  let key := cs.takeWhile (fun c => !(c == dquote))
  match cs.dropWhile (fun c => !(c == dquote)) with
  | _ :: a1 =>
    match a1.dropWhile isSpace with
    | d :: a2 =>
      if d = ':' then
        match a2.dropWhile isSpace with
        | q :: a3 =>
          if q = dquote then
            let val := a3.takeWhile (fun c => !(c == dquote))
            match a3.dropWhile (fun c => !(c == dquote)) with
            | _ :: after => some (key, val, after)
            | [] => none
          else none
        | [] => none
      else none
    | [] => none
  | [] => none

/-- Double-quote normalization pass: re.sub of a quoted key, optional
whitespace, a colon, optional whitespace and a quoted value, rewritten
with exactly one colon-space between them.  (The trailing whitespace
class inside the value group of the source pattern can only ever match
empty, since the greedy value group already extends to the closing
quote.) -/
def qnF : Nat → List Char → List Char
  | 0, cs => cs
  | fuel + 1, cs =>
    match cs with
    | [] => []
    | c :: rest =>
      if c = dquote then
        match matchQuoteNorm rest with
        | some (key, val, after) =>
          dquote :: key ++ dquote :: ':' :: ' ' :: dquote :: val ++
            dquote :: qnF fuel after
        | none => c :: qnF fuel rest
      else c :: qnF fuel rest

def normalizeQuotes (cs : List Char) : List Char := qnF cs.length cs

/-- Helper for the single-quote pass, same shape with single quotes. -/
def matchSQuoteNorm (cs : List Char) :
    Option (List Char × List Char × List Char) :=
  let key := cs.takeWhile (fun c => !(c == squote))
  match cs.dropWhile (fun c => !(c == squote)) with
  | _ :: a1 =>
    match a1.dropWhile isSpace with
    | d :: a2 =>
      if d = ':' then
        match a2.dropWhile isSpace with
        | q :: a3 =>
          if q = squote then
            let val := a3.takeWhile (fun c => !(c == squote))
            match a3.dropWhile (fun c => !(c == squote)) with
            | _ :: after => some (key, val, after)
            | [] => none
          else none
        | [] => none
      else none
    | [] => none
  | [] => none

/-- Single-quote pass: re.sub of a single-quoted key, colon and a
single-quoted value, replaced by the double-quoted group-1 (still
carrying its single quotes, exactly as the source's replacement
template does) and the double-quoted raw value. -/
def sqnF : Nat → List Char → List Char
  | 0, cs => cs
  | fuel + 1, cs =>
    match cs with
    | [] => []
    | c :: rest =>
      if c = squote then
        match matchSQuoteNorm rest with
        | some (key, val, after) =>
          dquote :: squote :: key ++ squote :: dquote :: ':' :: ' ' ::
            dquote :: val ++ dquote :: sqnF fuel after
        | none => c :: sqnF fuel rest
      else c :: sqnF fuel rest

def normalizeSingleQuotes (cs : List Char) : List Char := sqnF cs.length cs

def fenceJsonTag : List Char := [btick, btick, btick, 'j', 's', 'o', 'n']

def fenceTag : List Char := [btick, btick, btick]

/-- Fence pass: re.sub anchored at the start, of whitespace, the tagged
opening fence and trailing whitespace, removed.  When the prefix does
not match, the text (its leading whitespace included) is unchanged. -/
def stripFenceJsonOpen (cs : List Char) : List Char :=
  let t := cs.dropWhile isSpace
  if fenceJsonTag.isPrefixOf t then (t.drop 7).dropWhile isSpace else cs

/-- Fence pass: re.sub anchored at the end, of whitespace, a closing
fence and trailing whitespace, removed. -/
def stripFenceClose (cs : List Char) : List Char :=
  let r := cs.reverse.dropWhile isSpace
  if fenceTag.isPrefixOf r then ((r.drop 3).dropWhile isSpace).reverse else cs

/-- Fence pass: re.sub anchored at the start, of whitespace, an untagged
opening fence and trailing whitespace, removed. -/
def stripFenceOpen (cs : List Char) : List Char :=
  let t := cs.dropWhile isSpace
  if fenceTag.isPrefixOf t then (t.drop 3).dropWhile isSpace else cs

/-- layout_agent.repair_json: the thirteen source lines in their exact
order — strip, line comments, block comments, trailing separators,
leading separators, dangling keys, double-quote normalization,
single-quote normalization, tagged open fence, close fence, untagged
open fence, close fence, strip. -/
def repair_json (text : List Char) : List Char :=
  let t1 := stripL text
  let t2 := removeLineComments t1
  let t3 := removeBlockComments t2
  let t4 := removeTrailingCommas t3
  let t5 := removeLeadingCommas t4
  let t6 := removeDanglingKeys t5
  let t7 := normalizeQuotes t6
  let t8 := normalizeSingleQuotes t7
  let t9 := stripFenceJsonOpen t8
  let t10 := stripFenceClose t9
  let t11 := stripFenceOpen t10
  let t12 := stripFenceClose t11
  stripL t12

/-- Modelled from the spec: the pass order §4.1 documents — the fence
wrapper stripped first (pass 1), comments second (pass 2), then the
separator/quoting repairs.  This is the comparison definition for the
order claim; repair_json above is the source's order. -/
def repair_json_specOrder (text : List Char) : List Char :=
  let t1 := stripL text
  let t2 := stripFenceJsonOpen t1
  let t3 := stripFenceClose t2
  let t4 := stripFenceOpen t3
  let t5 := stripFenceClose t4
  let t6 := removeLineComments t5
  let t7 := removeBlockComments t6
  let t8 := removeTrailingCommas t7
  let t9 := removeLeadingCommas t8
  let t10 := removeDanglingKeys t9
  let t11 := normalizeQuotes t10
  stripL (normalizeSingleQuotes t11)

/-!
## json.loads on the integer-numeral fragment

A strict recursive-descent parser matching Python's json module:
whitespace is space/tab/newline/return; strings reject raw control
characters and unknown escapes; unicode escapes decode to scalar values
(surrogate escapes, which Python folds into surrogate pairs or lone
surrogates, are outside the embedding and rejected); numbers follow the
json grammar with a mandatory canonical integer part, and a fraction or
exponent part (a Python float) is rejected rather than misrepresented.
Objects collapse duplicate keys the way Python dicts do: the first
occurrence keeps its position, the last value wins.
-/

def skipWs (cs : List Char) : List Char := cs.dropWhile isJsonWs

def hexVal (c : Char) : Option Nat :=
  if '0' ≤ c ∧ c ≤ '9' then some (c.toNat - 48)
  else if 'a' ≤ c ∧ c ≤ 'f' then some (c.toNat - 87)
  else if 'A' ≤ c ∧ c ≤ 'F' then some (c.toNat - 55)
  else none

/-- Decode a backslash-u escape from four hex digits; surrogate code
points are rejected (see the module comment above). -/
def decodeU (a b c d : Char) : Option Char :=
  match hexVal a, hexVal b, hexVal c, hexVal d with
  | some x, some y, some z, some w =>
    let n := 4096 * x + 256 * y + 16 * z + w
    if 55296 ≤ n ∧ n < 57344 then none else some (Char.ofNat n)
  | _, _, _, _ => none

/-- The body of a JSON string, after the opening quote: returns the
decoded characters and the text after the closing quote. -/
def parseStrBody : List Char → Option (List Char × List Char)
  | [] => none
  | c :: rest =>
    if c = dquote then some ([], rest)
    else if c = bslash then
      match rest with
      | [] => none
      | e :: r2 =>
        if e = dquote then (parseStrBody r2).map (fun p => (dquote :: p.1, p.2))
        else if e = bslash then (parseStrBody r2).map (fun p => (bslash :: p.1, p.2))
        else if e = '/' then (parseStrBody r2).map (fun p => ('/' :: p.1, p.2))
        else if e = 'b' then (parseStrBody r2).map (fun p => (Char.ofNat 8 :: p.1, p.2))
        else if e = 'f' then (parseStrBody r2).map (fun p => (Char.ofNat 12 :: p.1, p.2))
        else if e = 'n' then (parseStrBody r2).map (fun p => ('\n' :: p.1, p.2))
        else if e = 'r' then (parseStrBody r2).map (fun p => ('\r' :: p.1, p.2))
        else if e = 't' then (parseStrBody r2).map (fun p => ('\t' :: p.1, p.2))
        else if e = 'u' then
          match r2 with
          | h1 :: h2 :: h3 :: h4 :: r3 =>
            match decodeU h1 h2 h3 h4 with
            | some ch => (parseStrBody r3).map (fun p => (ch :: p.1, p.2))
            | none => none
          | _ => none
        else none
    else if c.toNat < 32 then none
    else (parseStrBody rest).map (fun p => (c :: p.1, p.2))

def natFromDigits (ds : List Char) : Nat :=
  ds.foldl (fun n c => 10 * n + (c.toNat - 48)) 0

/-- True when the head character would extend a number literal into a
float (fraction or exponent part). -/
def floatCont : List Char → Bool
  | [] => false
  | c :: _ => c == '.' || c == 'e' || c == 'E'

/-- The unsigned integer part of a json number, starting at a digit:
either a single zero, or a nonzero leading digit followed by digits.
A following fraction/exponent marker means a Python float and is
rejected.  A zero followed by more digits matches only the zero, as in
Python, where the surrounding context then fails on the extra digit. -/
def parseIntPart : List Char → Option (Nat × List Char)
  | [] => none
  | c :: rest =>
    if c = '0' then
      if floatCont rest then none else some (0, rest)
    else if c.isDigit then
      let ds := (c :: rest).takeWhile Char.isDigit
      let r2 := (c :: rest).dropWhile Char.isDigit
      if floatCont r2 then none else some (natFromDigits ds, r2)
    else none

/-- Insert into a Python-dict association list: an existing key keeps
its position and takes the new value, a new key is appended. -/
def insertKV (ms : List (List Char × J)) (k : List Char) (v : J) :
    List (List Char × J) :=
  match ms with
  | [] => [(k, v)]
  | (k2, v2) :: rest =>
    if k2 = k then (k2, v) :: rest else (k2, v2) :: insertKV rest k v

mutual

/-- One JSON value: skip whitespace, dispatch on the first character.
The fuel only bounds recursion depth; json_loads supplies one unit per
input character plus one, which every path strictly respects since each
recursive call consumes at least one character first. -/
def parseVal : Nat → List Char → Option (J × List Char)
  | 0, _ => none
  | fuel + 1, cs =>
    match skipWs cs with
    | [] => none
    | c :: rest =>
      if c = obrace then
        match skipWs rest with
        | [] => none
        | d :: r2 =>
          if d = cbrace then some (J.obj [], r2)
          else parseMembers fuel (d :: r2) []
      else if c = obrack then
        match skipWs rest with
        | [] => none
        | d :: r2 =>
          if d = cbrack then some (J.arr [], r2)
          else parseElems fuel (d :: r2) []
      else if c = dquote then
        match parseStrBody rest with
        | some (s, r2) => some (J.str s, r2)
        | none => none
      else if c = 't' then
        match rest with
        | 'r' :: 'u' :: 'e' :: r2 => some (J.bool true, r2)
        | _ => none
      else if c = 'f' then
        match rest with
        | 'a' :: 'l' :: 's' :: 'e' :: r2 => some (J.bool false, r2)
        | _ => none
      else if c = 'n' then
        match rest with
        | 'u' :: 'l' :: 'l' :: r2 => some (J.null, r2)
        | _ => none
      else if c = '-' then
        match parseIntPart rest with
        | some (n, r2) => some (J.num (-(n : Int)), r2)
        | none => none
      else if c.isDigit then
        match parseIntPart (c :: rest) with
        | some (n, r2) => some (J.num (n : Int), r2)
        | none => none
      else none

/-- Object members, positioned at a key's opening quote (whitespace
already skipped), with the members accumulated so far. -/
def parseMembers : Nat → List Char → List (List Char × J) →
    Option (J × List Char)
  | 0, _, _ => none
  | fuel + 1, cs, acc =>
    match cs with
    | [] => none
    | q :: rest =>
      if q = dquote then
        match parseStrBody rest with
        | some (k, r2) =>
          match skipWs r2 with
          | ':' :: r3 =>
            match parseVal fuel r3 with
            | some (v, r4) =>
              let acc2 := insertKV acc k v
              match skipWs r4 with
              | ',' :: r5 => parseMembers fuel (skipWs r5) acc2
              | d :: r5 => if d = cbrace then some (J.obj acc2, r5) else none
              | [] => none
            | none => none
          | _ => none
        | none => none
      else none

/-- Array elements, positioned at an element's first character, with
the elements accumulated so far. -/
def parseElems : Nat → List Char → List J → Option (J × List Char)
  | 0, _, _ => none
  | fuel + 1, cs, acc =>
    match parseVal fuel cs with
    | some (v, r2) =>
      match skipWs r2 with
      | ',' :: r3 => parseElems fuel r3 (acc ++ [v])
      | d :: r3 => if d = cbrack then some (J.arr (acc ++ [v]), r3) else none
      | [] => none
    | none => none

end

/-- Python json.loads: parse one value and demand only whitespace after
it ("Extra data" otherwise); None stands for the JSONDecodeError. -/
def json_loads (cs : List Char) : Option J :=
  match parseVal (cs.length + 1) cs with
  | some (v, rest) => if (skipWs rest).isEmpty then some v else none
  | none => none

/-!
## json.dump with indent=2 (ensure_ascii disabled)

The printer used by StateManager.save_checkpoint: two-space indentation,
newline-separated items, a colon-space between key and value; strings
escape the quote, the backslash, the named control escapes and the other
control characters as four-digit unicode escapes, leaving everything
else raw. -/

def hexDigit (n : Nat) : Char :=
  if n < 10 then Char.ofNat (48 + n) else Char.ofNat (87 + n)

/-- The escape of one character in py_encode_basestring. -/
def escChar (c : Char) : List Char :=
  if c = dquote then [bslash, dquote]
  else if c = bslash then [bslash, bslash]
  else if c = '\n' then [bslash, 'n']
  else if c = '\r' then [bslash, 'r']
  else if c = '\t' then [bslash, 't']
  else if c = Char.ofNat 8 then [bslash, 'b']
  else if c = Char.ofNat 12 then [bslash, 'f']
  else if c.toNat < 32 then
    [bslash, 'u', '0', '0', hexDigit (c.toNat / 16), hexDigit (c.toNat % 16)]
  else [c]

def prStr (s : List Char) : List Char :=
  dquote :: (s.map escChar).flatten ++ [dquote]

def digitChar (n : Nat) : Char := Char.ofNat (48 + n)

/-- Decimal digits of a natural number, most significant first; the
fuel strictly dominates the digit count, so the zero-fuel branch is
unreachable from the wrapper. -/
def natDigitsF : Nat → Nat → List Char
  | 0, _ => []
  | fuel + 1, n =>
    if n < 10 then [digitChar n]
    else natDigitsF fuel (n / 10) ++ [digitChar (n % 10)]

def natDigits (n : Nat) : List Char := natDigitsF (n + 1) n

def prInt (i : Int) : List Char :=
  if i < 0 then '-' :: natDigits i.natAbs else natDigits i.natAbs

def indentOf (d : Nat) : List Char := List.replicate (2 * d) ' '

mutual

/-- Serialization of a value at indentation depth d. -/
def prVal : Nat → J → List Char
  | _, J.null => ['n', 'u', 'l', 'l']
  | _, J.bool true => ['t', 'r', 'u', 'e']
  | _, J.bool false => ['f', 'a', 'l', 's', 'e']
  | _, J.num i => prInt i
  | _, J.str s => prStr s
  | _, J.arr [] => [obrack, cbrack]
  | d, J.arr (x :: xs) =>
    obrack :: '\n' :: indentOf (d + 1) ++ prVal (d + 1) x ++
      prElemsTail (d + 1) xs ++ '\n' :: indentOf d ++ [cbrack]
  | _, J.obj [] => [obrace, cbrace]
  | d, J.obj (m :: ms) =>
    obrace :: '\n' :: indentOf (d + 1) ++ prMember (d + 1) m ++
      prMembersTail (d + 1) ms ++ '\n' :: indentOf d ++ [cbrace]

/-- Array items after the first, each preceded by comma-newline-indent. -/
def prElemsTail : Nat → List J → List Char
  | _, [] => []
  | d, x :: xs => ',' :: '\n' :: indentOf d ++ prVal d x ++ prElemsTail d xs

/-- A single object member: quoted key, colon-space, value. -/
def prMember : Nat → List Char × J → List Char
  | d, (k, v) => prStr k ++ ':' :: ' ' :: prVal d v

/-- Object members after the first, each preceded by comma-newline-indent. -/
def prMembersTail : Nat → List (List Char × J) → List Char
  | _, [] => []
  | d, m :: ms => ',' :: '\n' :: indentOf d ++ prMember d m ++ prMembersTail d ms

end

/-!
## The two extraction policies
-/

/-- layout_agent.extract_json_from_text's fallback search, re.search of
a brace-delimited span: the greedy match runs from the first opening
brace to the last closing brace, provided that closing brace comes
after the opening one. -/
def findBraceSpan (cs : List Char) : Option (List Char) :=
  let f := cs.dropWhile (fun c => !(c == obrace))
  if f.isEmpty then none
  else
    let g := f.reverse.dropWhile (fun c => !(c == cbrace))
    if g.isEmpty then none else some g.reverse

/-- layout_agent.extract_json_from_text: strip, repair, strict parse;
on failure, strict-parse the first-to-last brace span; on failure
again, the empty dict as the unrecoverable sentinel.  The JSONDecodeError
of each parse attempt is caught, so the function is total and never
raises. -/
def extract_json_from_text (text : List Char) : J :=
  let t := stripL text
  let r := repair_json t
  match json_loads r with
  | some v => v
  | none =>
    match findBraceSpan r with
    | some span =>
      match json_loads span with
      | some v => v
      | none => J.obj []
    | none => J.obj []

/-- structuring_agent.StructuringAgent._extract_json, the simple
fence-stripping policy: strip, then drop a leading tagged fence marker,
a leading untagged fence marker and a trailing fence marker when
present, then strip again.  The caller passes the result to a strict
parse. -/
def extract_json_simple (text : List Char) : List Char :=
  let t := stripL text
  let t2 := if fenceJsonTag.isPrefixOf t then t.drop 7 else t
  let t3 := if fenceTag.isPrefixOf t2 then t2.drop 3 else t2
  let t4 := if fenceTag.isSuffixOf t3 then t3.take (t3.length - 3) else t3
  stripL t4

/-!
## Well-formedness and size of JSON values

wfJ states that every object, at every depth, has pairwise distinct
keys — true of every value a Python dict tree can denote, since Python
dicts cannot hold duplicate keys; the association-list representation
alone would allow them.  sizeV counts parser call frames and bounds the
fuel the recursive-descent parser needs. -/

mutual

def wfJ : J → Bool
  | J.null => true
  | J.bool _ => true
  | J.num _ => true
  | J.str _ => true
  | J.arr l => wfL l
  | J.obj ms => decide ((ms.map Prod.fst).Nodup) && wfM ms

def wfL : List J → Bool
  | [] => true
  | x :: xs => wfJ x && wfL xs

def wfM : List (List Char × J) → Bool
  | [] => true
  | (_, v) :: ms => wfJ v && wfM ms

end

mutual

def sizeV : J → Nat
  | J.null => 1
  | J.bool _ => 1
  | J.num _ => 1
  | J.str _ => 1
  | J.arr l => 1 + sizeL l
  | J.obj ms => 1 + sizeM ms

def sizeL : List J → Nat
  | [] => 0
  | x :: xs => 1 + sizeV x + sizeL xs

def sizeM : List (List Char × J) → Nat
  | [] => 0
  | (_, v) :: ms => 1 + sizeV v + sizeM ms

end

/-!
## PipelineState and StateManager (src/state_manager.py)

Python dataclass fields are dynamically typed: from_dict assigns
whatever JSON value the checkpoint holds, so every field is a JSON
value here.  The two datetime.now() reads are an explicit `now`
argument.  File contents are returned rather than written; the claims
quantify over the written text directly. -/

structure PipelineState where
  source_file : J
  current_agent : J
  checkpoint_file : J
  retry_count : J
  errors : J
  completed_agents : J
  raw_text : J
  structured_v0 : J
  structured_v1 : J
  db_ready : J
  review_report : J
  created_at : J
  updated_at : J

def kSourceFile : List Char := "source_file".data

def kCurrentAgent : List Char := "current_agent".data

def kCheckpointFile : List Char := "checkpoint_file".data

def kRetryCount : List Char := "retry_count".data

def kErrors : List Char := "errors".data

def kCompletedAgents : List Char := "completed_agents".data

def kRawText : List Char := "raw_text".data

def kStructuredV0 : List Char := "structured_v0".data

def kStructuredV1 : List Char := "structured_v1".data

def kDbReady : List Char := "db_ready".data

def kReviewReport : List Char := "review_report".data

def kCreatedAt : List Char := "created_at".data

def kUpdatedAt : List Char := "updated_at".data

/-- The dataclass field defaults; both timestamps read datetime.now(). -/
def initState (now : List Char) : PipelineState :=
  { source_file := J.str []
    current_agent := J.str "init".data
    checkpoint_file := J.null
    retry_count := J.num 0
    errors := J.arr []
    completed_agents := J.arr []
    raw_text := J.str []
    structured_v0 := J.obj []
    structured_v1 := J.obj []
    db_ready := J.obj []
    review_report := J.obj []
    created_at := J.str now
    updated_at := J.str now }

/-- dataclasses.asdict: the fields in declaration order. -/
def PipelineState.to_dict (s : PipelineState) : List (List Char × J) :=
  [(kSourceFile, s.source_file), (kCurrentAgent, s.current_agent),
   (kCheckpointFile, s.checkpoint_file), (kRetryCount, s.retry_count),
   (kErrors, s.errors), (kCompletedAgents, s.completed_agents),
   (kRawText, s.raw_text), (kStructuredV0, s.structured_v0),
   (kStructuredV1, s.structured_v1), (kDbReady, s.db_ready),
   (kReviewReport, s.review_report), (kCreatedAt, s.created_at),
   (kUpdatedAt, s.updated_at)]

/-- setattr guarded by hasattr, as from_dict performs per key.  hasattr
also answers true for the class attributes to_dict and from_dict; a key
with one of those names sets a shadowing instance attribute and leaves
every dataclass field unchanged, so on the field record — all the
embedding tracks — it acts exactly like an unknown key. -/
def setField (s : PipelineState) (k : List Char) (v : J) : PipelineState :=
  if k = kSourceFile then { s with source_file := v }
  else if k = kCurrentAgent then { s with current_agent := v }
  else if k = kCheckpointFile then { s with checkpoint_file := v }
  else if k = kRetryCount then { s with retry_count := v }
  else if k = kErrors then { s with errors := v }
  else if k = kCompletedAgents then { s with completed_agents := v }
  else if k = kRawText then { s with raw_text := v }
  else if k = kStructuredV0 then { s with structured_v0 := v }
  else if k = kStructuredV1 then { s with structured_v1 := v }
  else if k = kDbReady then { s with db_ready := v }
  else if k = kReviewReport then { s with review_report := v }
  else if k = kCreatedAt then { s with created_at := v }
  else if k = kUpdatedAt then { s with updated_at := v }
  else s

def fieldKeys : List (List Char) :=
  [kSourceFile, kCurrentAgent, kCheckpointFile, kRetryCount, kErrors,
   kCompletedAgents, kRawText, kStructuredV0, kStructuredV1, kDbReady,
   kReviewReport, kCreatedAt, kUpdatedAt]

/-- PipelineState.from_dict: a fresh default instance (whose timestamp
defaults read datetime.now(), the `now` argument), then one guarded
setattr per dict item in order.  Total: no key and no value can make it
raise. -/
def PipelineState.from_dict (now : List Char) (data : List (List Char × J)) :
    PipelineState :=
  data.foldl (fun s kv => setField s kv.1 kv.2) (initState now)

/-- Reading one dataclass field by name (for frame statements). -/
def getField (s : PipelineState) (k : List Char) : Option J :=
  if k = kSourceFile then some s.source_file
  else if k = kCurrentAgent then some s.current_agent
  else if k = kCheckpointFile then some s.checkpoint_file
  else if k = kRetryCount then some s.retry_count
  else if k = kErrors then some s.errors
  else if k = kCompletedAgents then some s.completed_agents
  else if k = kRawText then some s.raw_text
  else if k = kStructuredV0 then some s.structured_v0
  else if k = kStructuredV1 then some s.structured_v1
  else if k = kDbReady then some s.db_ready
  else if k = kReviewReport then some s.review_report
  else if k = kCreatedAt then some s.created_at
  else if k = kUpdatedAt then some s.updated_at
  else none

/-- All thirteen field values satisfy the dict well-formedness
predicate; holds of every state a Python run can build. -/
def wfState (s : PipelineState) : Bool :=
  wfJ s.source_file && wfJ s.current_agent && wfJ s.checkpoint_file &&
  wfJ s.retry_count && wfJ s.errors && wfJ s.completed_agents &&
  wfJ s.raw_text && wfJ s.structured_v0 && wfJ s.structured_v1 &&
  wfJ s.db_ready && wfJ s.review_report && wfJ s.created_at &&
  wfJ s.updated_at

/-- StateManager.save_checkpoint: a no-op returning None when no
checkpoint directory is configured; otherwise refresh updated_at (the
single mutation of the passed state), serialize the whole state with
indent=2 and return the written path and contents.  The filename only
names the file; the serialized text never depends on it. -/
def save_checkpoint (hasDir : Bool) (s : PipelineState) (filename now : List Char) :
    PipelineState × Option (List Char × List Char) :=
  if hasDir then
    let s2 := { s with updated_at := J.str now }
    (s2, some (filename, prVal 0 (J.obj s2.to_dict)))
  else (s, none)

/-- StateManager.load_checkpoint on the contents of an existing file:
json.load, then PipelineState.from_dict.  A file whose top level is not
an object makes Python's data.items() raise; that raise is modelled as
none. -/
def load_checkpoint (contents now : List Char) : Option PipelineState :=
  match json_loads contents with
  | some (J.obj entries) => some (PipelineState.from_dict now entries)
  | _ => none

/-!
## Configuration constants (src/config.py)
-/

def MAX_RETRIES : Nat := 3

def INITIAL_BACKOFF : Nat := 2

/-!
## The transport client (src/regolo_client.py)

One requests.post exchange is an HttpOutcome: either the post call
itself raised a requests.exceptions.RequestException, or a response
arrived with a status, a body text and the body's parse (none when
response.json() would raise — requests' JSONDecodeError, itself a
RequestException subclass).  _make_request normalizes the outcome into
a returned payload or a raised exception tagged with the except-clause
that would catch it in call_with_retry: requestExc for the
requests.exceptions.RequestException family, otherExc for the plain
Exception raises of the status checks. -/

inductive ExcKind where
  | requestExc : ExcKind
  | otherExc : ExcKind

inductive HttpOutcome where
  | netExc (msg : List Char) : HttpOutcome
  | resp (status : Nat) (bodyText : List Char) (body : Option J) : HttpOutcome

def authFailedMsg : List Char :=
  "API Authentication failed (401). Check your API key.".data

def rateLimitMsg : List Char := "Rate limit exceeded (429). Please wait.".data

def emptyRespMsg : List Char := "Empty response from API".data

def maxRetriesMsg : List Char := "Max retries exceeded".data

def apiErrorMsg (status : Nat) (text : List Char) : List Char :=
  "API error ".data ++ natDigits status ++ ": ".data ++ text.take 200

/-- RegoloClient._make_request on one exchange outcome: 401, 429, any
other status of at least 400 and an empty body raise plain Exceptions
in that order; a healthy response returns its parsed body. -/
def make_request : HttpOutcome → Except (ExcKind × List Char) J
  | HttpOutcome.netExc m => Except.error (ExcKind.requestExc, m)
  | HttpOutcome.resp status text body =>
    if status = 401 then Except.error (ExcKind.otherExc, authFailedMsg)
    else if status = 429 then Except.error (ExcKind.otherExc, rateLimitMsg)
    else if 400 ≤ status then
      Except.error (ExcKind.otherExc, apiErrorMsg status text)
    else if text.isEmpty then Except.error (ExcKind.otherExc, emptyRespMsg)
    else
      match body with
      | some j => Except.ok j
      | none => Except.error (ExcKind.requestExc, "Invalid JSON body".data)

/-- The observable side effects of call_with_retry: the attempt index of
every requests.post issued and the duration of every time.sleep
performed. -/
structure RTrace where
  requests : List Nat
  sleeps : List Nat

/-- The body of RegoloClient.call_with_retry's for-loop, indexed by the
remaining iterations (attempt = maxR - remaining).  A RequestException
sleeps INITIAL_BACKOFF * 2 ^ attempt and continues when a later attempt
remains, else returns (None, message); any other exception returns
(None, message) immediately; falling out of the loop returns the
max-retries message. -/
def call_with_retry_loop (env : Nat → HttpOutcome) (maxR : Nat) :
    Nat → RTrace → Option J × Option (List Char) × RTrace
  | 0, tr => (none, some maxRetriesMsg, tr)
  | remaining + 1, tr =>
    let attempt := maxR - (remaining + 1)
    let tr1 : RTrace := { tr with requests := tr.requests ++ [attempt] }
    match make_request (env attempt) with
    | Except.ok r => (some r, none, tr1)
    | Except.error (ExcKind.requestExc, m) =>
      if 0 < remaining then
        let backoff := INITIAL_BACKOFF * 2 ^ attempt
        call_with_retry_loop env maxR remaining
          { tr1 with sleeps := tr1.sleeps ++ [backoff] }
      else (none, some m, tr1)
    | Except.error (ExcKind.otherExc, m) => (none, some m, tr1)

/-- RegoloClient.call_with_retry with the per-attempt exchange outcomes
as the environment. -/
def call_with_retry (env : Nat → HttpOutcome) (maxR : Nat) :
    Option J × Option (List Char) × RTrace :=
  call_with_retry_loop env maxR maxR ⟨[], []⟩

/-!
## The orchestrator (src/orchestrator.py)

run_pipeline drives the fixed agent order; _execute_agent retries one
agent up to MAX_RETRIES times.  The environment gives each dispatched
agent call's outcome: the returned dict, or the exception the try/except
catches.  The trace records the attempt indices dispatched, the backoff
value of every printed "Retrying in Ns..." message, and the duration of
every time.sleep performed — the loop performs none: it prints the
message and immediately re-enters the next attempt. -/

inductive AgentOutcome where
  | ok (result : J) : AgentOutcome
  | exn (msg : List Char) : AgentOutcome

/-- Agent name, attempt index, agent input, outcome. -/
def Env : Type := List Char → Nat → J → AgentOutcome

structure OTrace where
  attempts : List Nat
  retryMsgs : List Nat
  sleeps : List Nat

def kSuccess : List Char := "success".data

def kExtractedFields : List Char := "extracted_fields".data

def kNormalizedData : List Char := "normalized_data".data

def kStructuring : List Char := "structuring".data

def kNormalization : List Char := "normalization".data

def kLayout : List Char := "layout".data

def kHumanReview : List Char := "human_review".data

def AGENT_ORDER : List (List Char) :=
  [kStructuring, kNormalization, kLayout, kHumanReview]

/-- The CHECKPOINT_FILES name each successful stage saves under. -/
def checkpointName (name : List Char) : List Char :=
  if name = kStructuring then "structured_v0.json".data
  else if name = kNormalization then "structured_v1_normalized.json".data
  else if name = kLayout then "db_ready.json".data
  else "review_report.json".data

/-- The input each elif branch of _execute_agent passes its agent. -/
def stageInput (s : PipelineState) (name : List Char) : J :=
  if name = kStructuring then s.raw_text
  else if name = kNormalization then
    pyGetD s.structured_v0 kExtractedFields (J.obj [])
  else if name = kLayout then
    pyGetD s.structured_v1 kNormalizedData (J.obj [])
  else s.db_ready

/-- The state field each branch stores its validated result into. -/
def setOutput (s : PipelineState) (name : List Char) (r : J) : PipelineState :=
  if name = kStructuring then { s with structured_v0 := r }
  else if name = kNormalization then { s with structured_v1 := r }
  else if name = kLayout then { s with db_ready := r }
  else { s with review_report := r }

/-- Append to an errors/completed list (Python list.append).  The
non-list branch returns the value unchanged; Python would raise there,
and both lists hold J.arr values throughout every modelled run. -/
def pushJ (v x : J) : J :=
  match v with
  | J.arr l => J.arr (l ++ [x])
  | other => other

/-- The for-loop of Orchestrator._execute_agent, indexed by remaining
attempts (attempt + remaining = MAX_RETRIES).  Each iteration sets
retry_count, dispatches the agent on its input, and on a truthy
"success" field stores the result, saves the stage checkpoint and
returns True; an exception appends "name: message" to errors; when a
later attempt remains the computed backoff 2 * 2 ^ attempt is printed
("Retrying in Ns...") — and nothing sleeps — before re-invoking. -/
def execute_agent_loop (env : Env) (hasDir : Bool) (now name : List Char) :
    Nat → Nat → PipelineState → OTrace → Bool × PipelineState × OTrace
  | _, 0, s, tr => (false, s, tr)
  | attempt, remaining + 1, s, tr =>
    let s1 := { s with retry_count := J.num ((attempt : Int) + 1) }
    let afterTry : Option (Bool × PipelineState × OTrace) × PipelineState × OTrace :=
      match env name attempt (stageInput s1 name) with
      | AgentOutcome.ok r =>
        if truthyOpt (pyGetOpt r kSuccess) then
          let s2 := setOutput s1 name r
          let s3 := (save_checkpoint hasDir s2 (checkpointName name) now).1
          (some (true, s3, { tr with attempts := tr.attempts ++ [attempt] }),
           s1, tr)
        else (none, s1, { tr with attempts := tr.attempts ++ [attempt] })
      | AgentOutcome.exn m =>
        (none, { s1 with errors := pushJ s1.errors (J.str (name ++ ": ".data ++ m)) },
         { tr with attempts := tr.attempts ++ [attempt] })
    match afterTry with
    | (some done, _, _) => done
    | (none, s2, tr2) =>
      if 0 < remaining then
        let backoff := 2 * 2 ^ attempt
        execute_agent_loop env hasDir now name (attempt + 1) remaining s2
          { tr2 with retryMsgs := tr2.retryMsgs ++ [backoff] }
      else (false, s2, tr2)

/-- Orchestrator._execute_agent. -/
def execute_agent (env : Env) (hasDir : Bool) (now name : List Char)
    (s : PipelineState) : Bool × PipelineState × OTrace :=
  execute_agent_loop env hasDir now name 0 MAX_RETRIES s ⟨[], [], []⟩

/-- "Agent 'name' failed", appended to errors on permanent failure. -/
def agentFailedMsg (name : List Char) : List Char :=
  "Agent '".data ++ name ++ "' failed".data

/-- The failure checkpoint filename failed_name.json. -/
def failedCheckpointName (name : List Char) : List Char :=
  "failed_".data ++ name ++ ".json".data

/-- The for-loop of Orchestrator.run_pipeline over the remaining agent
names: set current_agent and reset retry_count, run the agent; on
failure append the diagnostic, save the failure checkpoint and stop; on
success append the name to completed_agents and continue.  The final
_save_final_outputs writes copies of terminal fields and mutates no
state. -/
def run_pipeline_stages (env : Env) (hasDir : Bool) (now : List Char) :
    List (List Char) → PipelineState → Bool × PipelineState
  | [], s => (true, s)
  | name :: names, s =>
    let s1 := { s with current_agent := J.str name, retry_count := J.num 0 }
    let r := execute_agent env hasDir now name s1
    if r.1 then
      run_pipeline_stages env hasDir now names
        { r.2.1 with
          completed_agents := pushJ r.2.1.completed_agents (J.str name) }
    else
      let s3 := { r.2.1 with
        errors := pushJ r.2.1.errors (J.str (agentFailedMsg name)) }
      (false, (save_checkpoint hasDir s3 (failedCheckpointName name) now).1)

/-- Orchestrator.run_pipeline. -/
def run_pipeline (env : Env) (hasDir : Bool) (now : List Char)
    (s : PipelineState) : Bool × PipelineState :=
  run_pipeline_stages env hasDir now AGENT_ORDER s

/-- The agent environments run_pipeline can face: every dict an agent
function returns carries a literal boolean under "success" — each
src/agents function either parses JSON and assigns result["success"] =
True, or returns an error dict with "success": False. -/
def envOk (env : Env) : Prop :=
  ∀ name attempt inp r, env name attempt inp = AgentOutcome.ok r →
    pyGetOpt r kSuccess = some (J.bool true) ∨
    pyGetOpt r kSuccess = some (J.bool false)

/-- The stage output field _execute_agent writes for an agent name. -/
def stageOutput (s : PipelineState) (name : List Char) : J :=
  if name = kStructuring then s.structured_v0
  else if name = kNormalization then s.structured_v1
  else if name = kLayout then s.db_ready
  else s.review_report

/-- The items of a JSON list (empty for non-lists), for stating
membership in completed_agents. -/
def jItems : J → List J
  | J.arr l => l
  | _ => []

/-- A context that cannot extend a just-printed number literal: the
next character is neither a digit nor a fraction/exponent marker.
Every separator the printer emits after a number satisfies this. -/
def numSafe : List Char → Bool
  | [] => true
  | c :: _ => !(c.isDigit || c == '.' || c == 'e' || c == 'E')

/-!
## The event-driven runner (src/pipeline_runner.py)

PipelineRunner.run dispatches each stage once through the worker pool;
_handle_agent_error walks the nominal retry schedule, emitting a
"Retrying in Ns..." log and awaiting asyncio.sleep for every interval,
and closes with step_error and complete events — it never re-invokes
the stage.  The trace records every emit call, every agent-function
invocation in order, and every sleep duration.  Event payload fields
beyond the step name (section counts and the like) are presentation
data and are not tracked. -/

inductive REvent where
  | stepStart (step : List Char) : REvent
  | stepComplete (step : List Char) : REvent
  | stepError (step : List Char) : REvent
  | logE (msg : List Char) : REvent
  | completeE (success : Bool) : REvent

structure RunnerEnv where
  ocrOk : Bool
  ocrText : List Char
  result : List Char → J → J

structure STrace where
  events : List REvent
  agentCalls : List (List Char)
  sleeps : List Nat

def retryLogMsg (name : List Char) (backoff : Nat) : List Char :=
  "Agent '".data ++ name ++ "' failed. Retrying in ".data ++
    natDigits backoff ++ "s...".data

/-- PipelineRunner._handle_agent_error: the events emitted and the
sleeps performed, in order.  For attempt = 1 .. MAX_RETRIES, every
attempt short of the last logs the retry message and sleeps
INITIAL_BACKOFF * 2 ^ (attempt - 1); the last emits step_error and an
unsuccessful complete.  No agent is invoked. -/
def handle_agent_error (name : List Char) : List REvent × List Nat :=
  ((List.range MAX_RETRIES).map (· + 1)).foldl
    (fun acc attempt =>
      if attempt < MAX_RETRIES then
        let backoff := INITIAL_BACKOFF * 2 ^ (attempt - 1)
        (acc.1 ++ [REvent.logE (retryLogMsg name backoff)], acc.2 ++ [backoff])
      else
        (acc.1 ++ [REvent.stepError name, REvent.completeE false], acc.2))
    ([], [])

def kOcr : List Char := "ocr".data

/-- One stage of PipelineRunner.run: emit step_start and the opening
log, invoke the agent function once, and either hand the failure to
_handle_agent_error and stop, or store the output, checkpoint, emit
step_complete and the closing log and continue. -/
def runnerStage (env : RunnerEnv) (now : List Char) (name : List Char)
    (checkpoint : List Char) (store : PipelineState → J → PipelineState)
    (input : PipelineState → J) (s : PipelineState) (tr : STrace)
    (next : PipelineState → STrace → Bool × PipelineState × STrace) :
    Bool × PipelineState × STrace :=
  let tr1 := { tr with events := tr.events ++ [REvent.stepStart name] }
  let r := env.result name (input s)
  let tr2 := { tr1 with agentCalls := tr1.agentCalls ++ [name] }
  if truthyOpt (pyGetOpt r kSuccess) then
    let s2 := store s r
    let s3 := (save_checkpoint true s2 checkpoint now).1
    next s3 { tr2 with events := tr2.events ++ [REvent.stepComplete name] }
  else
    let h := handle_agent_error name
    (false, s, { tr2 with events := tr2.events ++ h.1, sleeps := tr2.sleeps ++ h.2 })

/-- PipelineRunner.run: the OCR step, then the four agent stages in
order, each dispatched exactly once; a truthy final complete event on
success. -/
def runServer (env : RunnerEnv) (now : List Char) (s0 : PipelineState) :
    Bool × PipelineState × STrace :=
  let tr0 : STrace := ⟨[REvent.stepStart kOcr], [], []⟩
  if env.ocrOk then
    let tr1 := { tr0 with events := tr0.events ++ [REvent.stepComplete kOcr] }
    let s1 := { s0 with raw_text := J.str env.ocrText }
    runnerStage env now kStructuring ("structured_v0.json".data)
      (fun s r => { s with structured_v0 := r }) (fun s => s.raw_text) s1 tr1
      (fun s2 tr2 =>
        runnerStage env now kNormalization ("structured_v1_normalized.json".data)
          (fun s r => { s with structured_v1 := r })
          (fun s => pyGetD s.structured_v0 kExtractedFields (J.obj [])) s2 tr2
          (fun s3 tr3 =>
            runnerStage env now kLayout ("db_ready.json".data)
              (fun s r => { s with db_ready := r })
              (fun s => pyGetD s.structured_v1 kNormalizedData (J.obj [])) s3 tr3
              (fun s4 tr4 =>
                runnerStage env now kHumanReview ("review_report.json".data)
                  (fun s r => { s with review_report := r })
                  (fun s => s.db_ready) s4 tr4
                  (fun s5 tr5 =>
                    (true, s5,
                     { tr5 with events := tr5.events ++ [REvent.completeE true] })))))
  else
    (false, s0,
     { tr0 with events := tr0.events ++ [REvent.stepError kOcr, REvent.completeE false] })

/-!
# Theorems
-/

/-- Helper for C6: no branch of the _execute_agent retry loop appends to
the sleep trace — the loop contains no time.sleep call at all, only the
print of the retry message. -/
theorem execute_agent_loop_sleeps (env : Env) (hasDir : Bool) (now name : List Char) :
    ∀ remaining attempt s tr,
      (execute_agent_loop env hasDir now name attempt remaining s tr).2.2.sleeps
        = tr.sleeps := by
  intro remaining
  induction remaining with
  | zero => intro attempt s tr; rfl
  | succ m ih =>
    intro attempt s tr
    simp only [execute_agent_loop]
    rcases env name attempt
        (stageInput { s with retry_count := J.num ((attempt : Int) + 1) } name) with r | msg
    · by_cases h : truthyOpt (pyGetOpt r kSuccess) = true
      · simp [h]
      · simp only [Bool.not_eq_true] at h
        by_cases hm : 0 < m <;> simp [h, hm, ih]
    · by_cases hm : 0 < m <;> simp [hm, ih]

/-- C6 (code_bug): in blocking/CLI mode, _execute_agent does re-invoke
the full stage procedure up to MAX_RETRIES times, and between attempts
it computes the exponential backoff 2 * 2 ^ attempt and prints
"Retrying in Ns..." — but it never sleeps: the sleep trace is empty for
every environment, contradicting both the claim and the loop's own
printed message.  The second half evaluates the loop at a concrete
always-failing stage: three attempts are dispatched, the two retry
messages carry backoffs 2 and 4, and no sleep happens. -/
theorem blocking_retry_no_sleep :
    (∀ (env : Env) (hasDir : Bool) (now name : List Char) (s : PipelineState),
      (execute_agent env hasDir now name s).2.2.sleeps = []) ∧
    (execute_agent (fun _ _ _ => AgentOutcome.ok (J.obj [(kSuccess, J.bool false)]))
        true [] kStructuring (initState [])).1 = false ∧
    (execute_agent (fun _ _ _ => AgentOutcome.ok (J.obj [(kSuccess, J.bool false)]))
        true [] kStructuring (initState [])).2.2.attempts = [0, 1, 2] ∧
    (execute_agent (fun _ _ _ => AgentOutcome.ok (J.obj [(kSuccess, J.bool false)]))
        true [] kStructuring (initState [])).2.2.retryMsgs = [2, 4] ∧
    (execute_agent (fun _ _ _ => AgentOutcome.ok (J.obj [(kSuccess, J.bool false)]))
        true [] kStructuring (initState [])).2.2.sleeps = [] := by
  refine ⟨fun env hasDir now name s => execute_agent_loop_sleeps env hasDir now name
    MAX_RETRIES 0 s ⟨[], [], []⟩, by decide, by decide, by decide, by decide⟩

/-- C9: StateManager.save_checkpoint touches only updated_at on the
passed state; the other twelve fields come back unchanged, whether or
not a checkpoint directory is configured (without one it mutates
nothing at all). -/
theorem save_checkpoint_mutates_only_updated_at (hasDir : Bool)
    (s : PipelineState) (filename now : List Char) :
    (save_checkpoint hasDir s filename now).1.source_file = s.source_file ∧
    (save_checkpoint hasDir s filename now).1.current_agent = s.current_agent ∧
    (save_checkpoint hasDir s filename now).1.checkpoint_file = s.checkpoint_file ∧
    (save_checkpoint hasDir s filename now).1.retry_count = s.retry_count ∧
    (save_checkpoint hasDir s filename now).1.errors = s.errors ∧
    (save_checkpoint hasDir s filename now).1.completed_agents = s.completed_agents ∧
    (save_checkpoint hasDir s filename now).1.raw_text = s.raw_text ∧
    (save_checkpoint hasDir s filename now).1.structured_v0 = s.structured_v0 ∧
    (save_checkpoint hasDir s filename now).1.structured_v1 = s.structured_v1 ∧
    (save_checkpoint hasDir s filename now).1.db_ready = s.db_ready ∧
    (save_checkpoint hasDir s filename now).1.review_report = s.review_report ∧
    (save_checkpoint hasDir s filename now).1.created_at = s.created_at := by
  cases hasDir <;> simp [save_checkpoint]

/-- C5 (counterexample): the repair chain does not strip the fence
first.  On a text whose opening fence is preceded by a line comment,
the code (comments removed first, fences last) fully unwraps the
payload, while the documented fence-first order leaves the opening
fence in place: the two orders produce different texts. -/
theorem repair_order_counterexample :
    repair_json ("// a\n```json\n\x7b\"k\": 1\x7d\n```".data)
      = ("\x7b\"k\": 1\x7d".data) ∧
    repair_json_specOrder ("// a\n```json\n\x7b\"k\": 1\x7d\n```".data)
      = ("```json\n\x7b\"k\": 1\x7d".data) ∧
    repair_json ("// a\n```json\n\x7b\"k\": 1\x7d\n```".data)
      ≠ repair_json_specOrder ("// a\n```json\n\x7b\"k\": 1\x7d\n```".data) :=
  ⟨by decide, by decide, by decide⟩

/-- C5 (amended): the repair passes run in the fixed order strip, line
comments, block comments, trailing separators, leading separators,
dangling keys, double-quote normalization, single-quote normalization,
and the fenced-code wrapper is stripped last — not first — before the
final strip and the strict parse attempts. -/
theorem repair_order_amended (text : List Char) :
    repair_json text =
      stripL (stripFenceClose (stripFenceOpen (stripFenceClose (stripFenceJsonOpen
        (normalizeSingleQuotes (normalizeQuotes (removeDanglingKeys
          (removeLeadingCommas (removeTrailingCommas (removeBlockComments
            (removeLineComments (stripL text)))))))))))) := rfl

/-- C3 (counterexample): a 429 response with retry budget remaining and
a successful exchange available on the next attempt still ends the call
immediately: one request, no sleep, terminal (None, rate-limit message)
— the transport layer does not retry rate limiting. -/
theorem rate_limit_not_retried_counterexample :
    (call_with_retry (fun i => if i = 0 then HttpOutcome.resp 429 ("x".data) (some (J.obj []))
        else HttpOutcome.resp 200 ("ok".data) (some (J.obj []))) 3).1 = none ∧
    (call_with_retry (fun i => if i = 0 then HttpOutcome.resp 429 ("x".data) (some (J.obj []))
        else HttpOutcome.resp 200 ("ok".data) (some (J.obj []))) 3).2.1 = some rateLimitMsg ∧
    (call_with_retry (fun i => if i = 0 then HttpOutcome.resp 429 ("x".data) (some (J.obj []))
        else HttpOutcome.resp 200 ("ok".data) (some (J.obj []))) 3).2.2.requests = [0] ∧
    (call_with_retry (fun i => if i = 0 then HttpOutcome.resp 429 ("x".data) (some (J.obj []))
        else HttpOutcome.resp 200 ("ok".data) (some (J.obj []))) 3).2.2.sleeps = [] :=
  ⟨rfl, rfl, by decide, by decide⟩

/-- C3 (amended): a 429 raises a plain Exception, which the generic
handler of call_with_retry catches: the call returns a terminal (None,
rate-limit message) immediately after the single request, with no sleep
and no retry, whatever the remaining budget; only the
requests.exceptions.RequestException family reaches the backoff-sleep
path. -/
theorem rate_limit_terminal_amended (env : Nat → HttpOutcome) (maxR : Nat)
    (text : List Char) (body : Option J) (hmax : 1 ≤ maxR)
    (h0 : env 0 = HttpOutcome.resp 429 text body) :
    (call_with_retry env maxR).1 = none ∧
    (call_with_retry env maxR).2.1 = some rateLimitMsg ∧
    (call_with_retry env maxR).2.2.requests = [0] ∧
    (call_with_retry env maxR).2.2.sleeps = [] := by
  obtain ⟨m, rfl⟩ : ∃ m, maxR = m + 1 := ⟨maxR - 1, by omega⟩
  have ha : m + 1 - (m + 1) = 0 := by omega
  simp [call_with_retry, call_with_retry_loop, ha, h0, make_request]

/-!
Character-preservation of the repair chain: no pass ever introduces an
opening brace, so a brace-free text stays brace-free all the way to the
fallback regex search, which then finds nothing.
-/

theorem not_mem_dropWhile {p : Char → Bool} {c : Char} {l : List Char}
    (h : c ∉ l) : c ∉ l.dropWhile p :=
  fun hm => h ((List.dropWhile_sublist p).subset hm)

theorem not_mem_takeWhile {p : Char → Bool} {c : Char} {l : List Char}
    (h : c ∉ l) : c ∉ l.takeWhile p :=
  fun hm => h ((List.takeWhile_sublist p).subset hm)

theorem not_mem_stripL {c : Char} {l : List Char} (h : c ∉ l) : c ∉ stripL l := by
  unfold stripL
  intro hm
  rw [List.mem_reverse] at hm
  have h2 : c ∉ (l.dropWhile isSpace).reverse := by
    simpa using not_mem_dropWhile (p := isSpace) h
  exact not_mem_dropWhile h2 hm

theorem not_mem_rlcF (c : Char) :
    ∀ fuel inC cs, c ∉ cs → c ∉ rlcF fuel inC cs := by
  intro fuel
  induction fuel with
  | zero => intro inC cs h; exact h
  | succ m ih =>
    intro inC cs h
    cases inC
    case false =>
      rcases cs with _ | ⟨a, _ | ⟨b, r2⟩⟩
      · simpa [rlcF] using h
      · have hh : c ≠ a := by simpa using h
        dsimp only [rlcF]
        split_ifs <;> simp [List.mem_cons, hh, ih false [] (by simp)]
      · have hh : c ≠ a ∧ c ≠ b ∧ c ∉ r2 := by
          simpa [List.mem_cons, not_or] using h
        have hr : c ∉ b :: r2 := by simp [List.mem_cons, not_or, hh.2.1, hh.2.2]
        dsimp only [rlcF]
        split_ifs with h1 h2
        · exact ih true r2 hh.2.2
        · simp [List.mem_cons, not_or, hh.1, ih false (b :: r2) hr]
        · simp [List.mem_cons, not_or, hh.1, ih false (b :: r2) hr]
    case true =>
      rcases cs with _ | ⟨a, rest⟩
      · simpa [rlcF] using h
      · have hh : c ≠ a ∧ c ∉ rest := by simpa [List.mem_cons, not_or] using h
        dsimp only [rlcF]
        split_ifs with h1
        · simp [List.mem_cons, not_or, h1 ▸ hh.1, ih false rest hh.2]
        · exact ih true rest hh.2

theorem cutToClose_subset :
    ∀ cs r, cutToClose cs = some r → ∀ c, c ∈ r → c ∈ cs := by
  intro cs
  induction cs with
  | nil => intro r h; simp [cutToClose] at h
  | cons a rest ih =>
    intro r h c hc
    rcases rest with _ | ⟨b, r2⟩
    · simp [cutToClose] at h
    · rw [cutToClose.eq_def] at h
      dsimp only at h
      split_ifs at h with ha hb
      · obtain rfl : r2 = r := by injection h
        exact List.mem_cons_of_mem a (List.mem_cons_of_mem b hc)
      · exact List.mem_cons_of_mem a (ih r h c hc)
      · exact List.mem_cons_of_mem a (ih r h c hc)

theorem not_mem_rbcF (c : Char) :
    ∀ fuel cs, c ∉ cs → c ∉ rbcF fuel cs := by
  intro fuel
  induction fuel with
  | zero => intro cs h; exact h
  | succ m ih =>
    intro cs h
    rcases cs with _ | ⟨a, _ | ⟨b, r2⟩⟩
    · simpa [rbcF] using h
    · have hh : c ≠ a := by simpa using h
      dsimp only [rbcF]
      split_ifs <;> simp [List.mem_cons, hh, ih [] (by simp)]
    · have hh : c ≠ a ∧ c ≠ b ∧ c ∉ r2 := by
        simpa [List.mem_cons, not_or] using h
      have hr : c ∉ b :: r2 := by simp [List.mem_cons, not_or, hh.2.1, hh.2.2]
      dsimp only [rbcF]
      split_ifs with h1 h2
      · rcases hcut : cutToClose r2 with _ | r3 <;> simp only [hcut]
        · simp [List.mem_cons, not_or, hh.1, hh.2.1, hh.2.2]
        · exact ih r3 fun hm => hh.2.2 (cutToClose_subset r2 r3 hcut c hm)
      · simp [List.mem_cons, not_or, hh.1, ih (b :: r2) hr]
      · simp [List.mem_cons, not_or, hh.1, ih (b :: r2) hr]

theorem matchWsBracket_eq {cs : List Char} {b : Char} {after : List Char}
    (h : matchWsBracket cs = some (b, after)) :
    b :: after = cs.dropWhile isSpace := by
  unfold matchWsBracket at h
  split at h
  · split_ifs at h
    cases h
    simp_all
  · cases h

theorem not_mem_rtcF (c : Char) :
    ∀ fuel cs, c ∉ cs → c ∉ rtcF fuel cs := by
  intro fuel
  induction fuel with
  | zero => intro cs h; exact h
  | succ m ih =>
    intro cs h
    rcases cs with _ | ⟨a, rest⟩
    · simpa [rtcF] using h
    · simp only [rtcF]
      have hh : c ≠ a ∧ c ∉ rest := by simpa [List.mem_cons, not_or] using h
      split_ifs with ha
      · rcases hm : matchWsBracket rest with _ | ⟨b, after⟩ <;> simp only [hm]
        · simp [List.mem_cons, not_or, hh.1, ih rest hh.2]
        · have he := matchWsBracket_eq hm
          have hba : c ∉ b :: after := by
            rw [he]; exact not_mem_dropWhile hh.2
          simp only [List.mem_cons, not_or] at hba ⊢
          exact ⟨hba.1, ih _ hba.2⟩
      · simp [List.mem_cons, not_or, hh.1, ih rest hh.2]

theorem matchWsComma_eq {cs after : List Char}
    (h : matchWsComma cs = some after) :
    ',' :: after = cs.dropWhile isSpace := by
  unfold matchWsComma at h
  split at h
  · split_ifs at h
    cases h
    simp_all
  · cases h

theorem not_mem_rlsF (c : Char) :
    ∀ fuel cs, c ∉ cs → c ∉ rlsF fuel cs := by
  intro fuel
  induction fuel with
  | zero => intro cs h; exact h
  | succ m ih =>
    intro cs h
    rcases cs with _ | ⟨a, rest⟩
    · simpa [rlsF] using h
    · simp only [rlsF]
      have hh : c ≠ a ∧ c ∉ rest := by simpa [List.mem_cons, not_or] using h
      split_ifs with ha
      · rcases hm : matchWsComma rest with _ | after <;> simp only [hm]
        · simp [List.mem_cons, not_or, hh.1, ih rest hh.2]
        · have he := matchWsComma_eq hm
          have hba : c ∉ ',' :: after := by
            rw [he]; exact not_mem_dropWhile hh.2
          simp only [List.mem_cons, not_or] at hba
          simp [List.mem_cons, not_or, hh.1, ih after hba.2]
      · simp [List.mem_cons, not_or, hh.1, ih rest hh.2]

theorem matchDangling_subset {cs after : List Char}
    (h : matchDangling cs = some after) : ∀ c, c ∈ after → c ∈ cs := by
  intro c hc
  unfold matchDangling at h
  split at h
  next q a1 heq1 =>
    split_ifs at h
    split at h
    next x a2 heq2 =>
      split at h
      next d a4 heq3 =>
        split_ifs at h
        split at h
        next b a5 heq4 =>
          split_ifs at h
          obtain rfl : b :: a5 = after := by injection h
          have h1 : c ∈ a4.dropWhile isSpace := by rw [heq4]; exact hc
          have h2 : c ∈ a2.dropWhile isSpace := by
            rw [heq3]
            exact List.mem_cons_of_mem d ((List.dropWhile_sublist _).subset h1)
          have h3 : c ∈ a1.dropWhile (fun ch => !(ch == dquote)) := by
            rw [heq2]
            exact List.mem_cons_of_mem x ((List.dropWhile_sublist _).subset h2)
          have h4 : c ∈ cs.dropWhile isSpace := by
            rw [heq1]
            exact List.mem_cons_of_mem q ((List.dropWhile_sublist _).subset h3)
          exact (List.dropWhile_sublist _).subset h4
        next => cases h
      next => cases h
    next => cases h
  next => cases h

theorem not_mem_rdkF (c : Char) :
    ∀ fuel cs, c ∉ cs → c ∉ rdkF fuel cs := by
  intro fuel
  induction fuel with
  | zero => intro cs h; exact h
  | succ m ih =>
    intro cs h
    rcases cs with _ | ⟨a, rest⟩
    · simpa [rdkF] using h
    · simp only [rdkF]
      have hh : c ≠ a ∧ c ∉ rest := by simpa [List.mem_cons, not_or] using h
      split_ifs with ha
      · rcases hm : matchDangling rest with _ | after <;> simp only [hm]
        · simp [List.mem_cons, not_or, hh.1, ih rest hh.2]
        · exact ih _ fun hm2 => hh.2 (matchDangling_subset hm c hm2)
      · simp [List.mem_cons, not_or, hh.1, ih rest hh.2]

theorem matchQuoteNorm_subset {cs key val after : List Char}
    (h : matchQuoteNorm cs = some (key, val, after)) :
    ∀ c, (c ∈ key ∨ c ∈ val ∨ c ∈ after) → c ∈ cs := by
  intro c hc
  unfold matchQuoteNorm at h
  split at h
  next x a1 heq1 =>
    split at h
    next d a2 heq2 =>
      split_ifs at h
      split at h
      next q a3 heq3 =>
        split_ifs at h
        split at h
        next y after2 heq4 =>
          dsimp only at h
          rw [Option.some.injEq, Prod.mk.injEq, Prod.mk.injEq] at h
          obtain ⟨rfl, rfl, rfl⟩ := h
          have up3 : ∀ e, e ∈ a3 → e ∈ cs := by
            intro e he
            have s3 : e ∈ a2.dropWhile isSpace := by
              rw [heq3]; exact List.mem_cons_of_mem q he
            have s2 : e ∈ a1.dropWhile isSpace := by
              rw [heq2]
              exact List.mem_cons_of_mem d ((List.dropWhile_sublist _).subset s3)
            have s1 : e ∈ cs.dropWhile (fun ch => !(ch == dquote)) := by
              rw [heq1]
              exact List.mem_cons_of_mem x ((List.dropWhile_sublist _).subset s2)
            exact (List.dropWhile_sublist _).subset s1
          rcases hc with hk | hv | ha
          · exact (List.takeWhile_sublist _).subset hk
          · exact up3 c ((List.takeWhile_sublist _).subset hv)
          · have : c ∈ a3.dropWhile (fun ch => !(ch == dquote)) := by
              rw [heq4]; exact List.mem_cons_of_mem y ha
            exact up3 c ((List.dropWhile_sublist _).subset this)
        next => cases h
      next => cases h
    next => cases h
  next => cases h

theorem not_mem_qnF (c : Char) (hq : c ≠ dquote) (hcolon : c ≠ ':') (hsp : c ≠ ' ') :
    ∀ fuel cs, c ∉ cs → c ∉ qnF fuel cs := by
  intro fuel
  induction fuel with
  | zero => intro cs h; exact h
  | succ m ih =>
    intro cs h
    rcases cs with _ | ⟨a, rest⟩
    · simpa [qnF] using h
    · simp only [qnF]
      have hh : c ≠ a ∧ c ∉ rest := by simpa [List.mem_cons, not_or] using h
      split_ifs with ha
      · rcases hm : matchQuoteNorm rest with _ | ⟨key, val, after⟩ <;> simp only [hm]
        · simp [List.mem_cons, not_or, hh.1, ih rest hh.2]
        · have hk : c ∉ key := fun hx => hh.2 (matchQuoteNorm_subset hm c (Or.inl hx))
          have hv : c ∉ val := fun hx => hh.2 (matchQuoteNorm_subset hm c (Or.inr (Or.inl hx)))
          have haf : c ∉ after := fun hx => hh.2 (matchQuoteNorm_subset hm c (Or.inr (Or.inr hx)))
          simp [List.mem_cons, List.mem_append, not_or, hq, hcolon, hsp, hk, hv,
            ih after haf]
      · simp [List.mem_cons, not_or, hh.1, ih rest hh.2]

theorem matchSQuoteNorm_subset {cs key val after : List Char}
    (h : matchSQuoteNorm cs = some (key, val, after)) :
    ∀ c, (c ∈ key ∨ c ∈ val ∨ c ∈ after) → c ∈ cs := by
  intro c hc
  unfold matchSQuoteNorm at h
  split at h
  next x a1 heq1 =>
    split at h
    next d a2 heq2 =>
      split_ifs at h
      split at h
      next q a3 heq3 =>
        split_ifs at h
        split at h
        next y after2 heq4 =>
          dsimp only at h
          rw [Option.some.injEq, Prod.mk.injEq, Prod.mk.injEq] at h
          obtain ⟨rfl, rfl, rfl⟩ := h
          have up3 : ∀ e, e ∈ a3 → e ∈ cs := by
            intro e he
            have s3 : e ∈ a2.dropWhile isSpace := by
              rw [heq3]; exact List.mem_cons_of_mem q he
            have s2 : e ∈ a1.dropWhile isSpace := by
              rw [heq2]
              exact List.mem_cons_of_mem d ((List.dropWhile_sublist _).subset s3)
            have s1 : e ∈ cs.dropWhile (fun ch => !(ch == squote)) := by
              rw [heq1]
              exact List.mem_cons_of_mem x ((List.dropWhile_sublist _).subset s2)
            exact (List.dropWhile_sublist _).subset s1
          rcases hc with hk | hv | ha
          · exact (List.takeWhile_sublist _).subset hk
          · exact up3 c ((List.takeWhile_sublist _).subset hv)
          · have : c ∈ a3.dropWhile (fun ch => !(ch == squote)) := by
              rw [heq4]; exact List.mem_cons_of_mem y ha
            exact up3 c ((List.dropWhile_sublist _).subset this)
        next => cases h
      next => cases h
    next => cases h
  next => cases h

theorem not_mem_sqnF (c : Char) (hq : c ≠ dquote) (hs : c ≠ squote)
    (hcolon : c ≠ ':') (hsp : c ≠ ' ') :
    ∀ fuel cs, c ∉ cs → c ∉ sqnF fuel cs := by
  intro fuel
  induction fuel with
  | zero => intro cs h; exact h
  | succ m ih =>
    intro cs h
    rcases cs with _ | ⟨a, rest⟩
    · simpa [sqnF] using h
    · simp only [sqnF]
      have hh : c ≠ a ∧ c ∉ rest := by simpa [List.mem_cons, not_or] using h
      split_ifs with ha
      · rcases hm : matchSQuoteNorm rest with _ | ⟨key, val, after⟩ <;> simp only [hm]
        · simp [List.mem_cons, not_or, hh.1, ih rest hh.2]
        · have hk : c ∉ key := fun hx => hh.2 (matchSQuoteNorm_subset hm c (Or.inl hx))
          have hv : c ∉ val := fun hx => hh.2 (matchSQuoteNorm_subset hm c (Or.inr (Or.inl hx)))
          have haf : c ∉ after := fun hx => hh.2 (matchSQuoteNorm_subset hm c (Or.inr (Or.inr hx)))
          simp [List.mem_cons, List.mem_append, not_or, hq, hs, hcolon, hsp, hk, hv,
            ih after haf]
      · simp [List.mem_cons, not_or, hh.1, ih rest hh.2]

theorem not_mem_stripFenceJsonOpen {c : Char} {cs : List Char} (h : c ∉ cs) :
    c ∉ stripFenceJsonOpen cs := by
  simp only [stripFenceJsonOpen]
  split_ifs
  · exact not_mem_dropWhile fun hm =>
      (not_mem_dropWhile h) (List.drop_subset 7 _ hm)
  · exact h

theorem not_mem_stripFenceOpen {c : Char} {cs : List Char} (h : c ∉ cs) :
    c ∉ stripFenceOpen cs := by
  simp only [stripFenceOpen]
  split_ifs
  · exact not_mem_dropWhile fun hm =>
      (not_mem_dropWhile h) (List.drop_subset 3 _ hm)
  · exact h

theorem not_mem_stripFenceClose {c : Char} {cs : List Char} (h : c ∉ cs) :
    c ∉ stripFenceClose cs := by
  simp only [stripFenceClose]
  split_ifs
  · intro hm
    rw [List.mem_reverse] at hm
    have h2 : c ∉ cs.reverse.dropWhile isSpace := not_mem_dropWhile (by simpa using h)
    exact (not_mem_dropWhile fun hx => h2 (List.drop_subset 3 _ hx)) hm
  · exact h

/-- No repair pass introduces an opening brace. -/
theorem obrace_not_mem_repair {text : List Char} (h : obrace ∉ text) :
    obrace ∉ repair_json text := by
  unfold repair_json removeLineComments removeBlockComments removeTrailingCommas
    removeLeadingCommas removeDanglingKeys normalizeQuotes normalizeSingleQuotes
  exact not_mem_stripL (not_mem_stripFenceClose (not_mem_stripFenceOpen
    (not_mem_stripFenceClose (not_mem_stripFenceJsonOpen
      (not_mem_sqnF obrace (by decide) (by decide) (by decide) (by decide) _ _
        (not_mem_qnF obrace (by decide) (by decide) (by decide) _ _
          (not_mem_rdkF obrace _ _
            (not_mem_rlsF obrace _ _
              (not_mem_rtcF obrace _ _
                (not_mem_rbcF obrace _ _
                  (not_mem_rlcF obrace _ _ _ (not_mem_stripL h))))))))))))

/-- A brace-free text makes the fallback regex search fail. -/
theorem findBraceSpan_eq_none {cs : List Char} (h : obrace ∉ cs) :
    findBraceSpan cs = none := by
  unfold findBraceSpan
  have : cs.dropWhile (fun c => !(c == obrace)) = [] := by
    rw [List.dropWhile_eq_nil_iff]
    intro x hx
    simp only [Bool.not_eq_true']
    exact beq_false_of_ne (fun he => h (he ▸ hx))
  simp [this]

/-- C2 (counterexample): a text with no brace-delimited span at all need
not yield the sentinel — "[1, 2]" contains no opening brace, survives
every repair pass and parses strictly, so extraction returns the list
value, which is not the empty dict. -/
theorem no_brace_not_sentinel_counterexample :
    extract_json_from_text ("[1, 2]".data) = J.arr [J.num 1, J.num 2] ∧
    obrace ∉ ("[1, 2]".data) ∧
    J.arr [J.num 1, J.num 2] ≠ J.obj [] :=
  ⟨rfl, by decide, fun h => J.noConfusion h⟩

/-- C2 (amended): the extractor is total — every path returns a value,
the parse failures being caught — and on a text containing no
brace-delimited span whose repaired form also fails the strict parse it
returns the empty-dict sentinel: brace-freeness survives the repair
chain, so the fallback span search finds nothing. -/
theorem no_brace_unparseable_yields_sentinel (text : List Char)
    (hb : obrace ∉ text)
    (hp : json_loads (repair_json (stripL text)) = none) :
    extract_json_from_text text = J.obj [] := by
  simp only [extract_json_from_text]
  rw [hp, findBraceSpan_eq_none (obrace_not_mem_repair (not_mem_stripL hb))]

/-- Witness for the amended C2 at a concrete brace-free input. -/
theorem no_brace_unparseable_yields_sentinel_witness :
    obrace ∉ ("hello".data) ∧
    json_loads (repair_json (stripL ("hello".data))) = none ∧
    extract_json_from_text ("hello".data) = J.obj [] :=
  ⟨by decide, rfl,
   no_brace_unparseable_yields_sentinel ("hello".data) (by decide) rfl⟩

theorem dropWhile_append_singleton {p : Char → Bool} {a : Char} (ha : p a = false) :
    ∀ u : List Char, (u ++ [a]).dropWhile p = u.dropWhile p ++ [a] := by
  intro u
  induction u with
  | nil => simp [List.dropWhile_cons, ha]
  | cons x t ih => by_cases hx : p x <;> simp [List.dropWhile_cons, hx, ih]

theorem dropWhile_idem {p : Char → Bool} :
    ∀ l : List Char, (l.dropWhile p).dropWhile p = l.dropWhile p := by
  intro l
  induction l with
  | nil => simp
  | cons x t ih => by_cases hx : p x <;> simp [List.dropWhile_cons, hx, ih]

/-- str.strip is idempotent; in particular repair_json, whose outermost
step is a strip, gives the same text whether applied to a text or to
its stripped form. -/
theorem stripL_idem (cs : List Char) : stripL (stripL cs) = stripL cs := by
  rcases hA : cs.dropWhile isSpace with _ | ⟨a, t⟩
  · simp [stripL, hA]
  · have hne : cs.dropWhile isSpace ≠ [] := by simp [hA]
    have ha : isSpace a = false := by
      have := List.head_dropWhile_not isSpace cs hne
      simpa [hA] using this
    have hD := dropWhile_append_singleton (p := isSpace) ha
    simp [stripL, hA, List.reverse_cons, hD, dropWhile_idem,
      List.dropWhile_cons, ha, List.reverse_append]

theorem repair_json_stripL (t : List Char) :
    repair_json (stripL t) = repair_json t := by
  simp only [repair_json, stripL_idem]

/-- C4 (counterexample): on the already-valid structured text with a
comment marker inside a string value, the repair policy does not return
the strict parse: the line-comment pass truncates the text, the strict
parse of the truncated text fails, the brace search finds no closing
brace, and the sentinel comes back instead of the parsed object. -/
theorem clean_passthrough_counterexample :
    json_loads ("\x7b\"a\": \"b//c\"\x7d".data)
      = some (J.obj [("a".data, J.str ("b//c".data))]) ∧
    extract_json_from_text ("\x7b\"a\": \"b//c\"\x7d".data) = J.obj [] ∧
    J.obj [] ≠ J.obj [("a".data, J.str ("b//c".data))] :=
  ⟨rfl, rfl, by intro h; injection h with h2; exact absurd h2 (by simp)⟩

/-- C4 (amended): for an already-valid structured text that the
policies' text transforms leave unchanged — the repair chain acts as
the identity on it, as does the simple fence stripper — both extraction
policies return exactly the strict parse of the text. -/
theorem clean_passthrough_amended (t : List Char) (v : J)
    (h1 : json_loads t = some v)
    (h2 : repair_json t = t)
    (h3 : extract_json_simple t = t) :
    extract_json_from_text t = v ∧ json_loads (extract_json_simple t) = some v := by
  constructor
  · simp only [extract_json_from_text, repair_json_stripL, h2, h1]
  · rw [h3, h1]

/-- Witness for the amended C4 at a concrete clean JSON text. -/
theorem clean_passthrough_witness :
    json_loads ("\x7b\"a\": 1\x7d".data) = some (J.obj [("a".data, J.num 1)]) ∧
    repair_json ("\x7b\"a\": 1\x7d".data) = ("\x7b\"a\": 1\x7d".data) ∧
    extract_json_simple ("\x7b\"a\": 1\x7d".data) = ("\x7b\"a\": 1\x7d".data) ∧
    extract_json_from_text ("\x7b\"a\": 1\x7d".data) = J.obj [("a".data, J.num 1)] :=
  ⟨rfl, by decide, by decide,
   (clean_passthrough_amended ("\x7b\"a\": 1\x7d".data) (J.obj [("a".data, J.num 1)])
     rfl (by decide) (by decide)).1⟩

theorem setField_not_field {s : PipelineState} {k : List Char} {v : J}
    (h : k ∉ fieldKeys) : setField s k v = s := by
  simp only [fieldKeys, List.mem_cons, not_or] at h
  obtain ⟨h1, h2, h3, h4, h5, h6, h7, h8, h9, h10, h11, h12, h13, -⟩ := h
  unfold setField
  rw [if_neg h1, if_neg h2, if_neg h3, if_neg h4, if_neg h5, if_neg h6, if_neg h7,
    if_neg h8, if_neg h9, if_neg h10, if_neg h11, if_neg h12, if_neg h13]

theorem getField_setField_ne {s : PipelineState} {k2 k : List Char} {v : J}
    (h : k2 ≠ k) : getField (setField s k2 v) k = getField s k := by
  by_cases hsource_file : k2 = kSourceFile
  · subst hsource_file
    rw [show setField s kSourceFile v = { s with source_file := v } from rfl]
    unfold getField
    rw [if_neg (Ne.symm h), if_neg (Ne.symm h)]
  by_cases hcurrent_agent : k2 = kCurrentAgent
  · subst hcurrent_agent
    rw [show setField s kCurrentAgent v = { s with current_agent := v } from rfl]
    unfold getField
    rw [if_neg (Ne.symm h), if_neg (Ne.symm h)]
  by_cases hcheckpoint_file : k2 = kCheckpointFile
  · subst hcheckpoint_file
    rw [show setField s kCheckpointFile v = { s with checkpoint_file := v } from rfl]
    unfold getField
    rw [if_neg (Ne.symm h), if_neg (Ne.symm h)]
  by_cases hretry_count : k2 = kRetryCount
  · subst hretry_count
    rw [show setField s kRetryCount v = { s with retry_count := v } from rfl]
    unfold getField
    rw [if_neg (Ne.symm h), if_neg (Ne.symm h)]
  by_cases herrors : k2 = kErrors
  · subst herrors
    rw [show setField s kErrors v = { s with errors := v } from rfl]
    unfold getField
    rw [if_neg (Ne.symm h), if_neg (Ne.symm h)]
  by_cases hcompleted_agents : k2 = kCompletedAgents
  · subst hcompleted_agents
    rw [show setField s kCompletedAgents v = { s with completed_agents := v } from rfl]
    unfold getField
    rw [if_neg (Ne.symm h), if_neg (Ne.symm h)]
  by_cases hraw_text : k2 = kRawText
  · subst hraw_text
    rw [show setField s kRawText v = { s with raw_text := v } from rfl]
    unfold getField
    rw [if_neg (Ne.symm h), if_neg (Ne.symm h)]
  by_cases hstructured_v0 : k2 = kStructuredV0
  · subst hstructured_v0
    rw [show setField s kStructuredV0 v = { s with structured_v0 := v } from rfl]
    unfold getField
    rw [if_neg (Ne.symm h), if_neg (Ne.symm h)]
  by_cases hstructured_v1 : k2 = kStructuredV1
  · subst hstructured_v1
    rw [show setField s kStructuredV1 v = { s with structured_v1 := v } from rfl]
    unfold getField
    rw [if_neg (Ne.symm h), if_neg (Ne.symm h)]
  by_cases hdb_ready : k2 = kDbReady
  · subst hdb_ready
    rw [show setField s kDbReady v = { s with db_ready := v } from rfl]
    unfold getField
    rw [if_neg (Ne.symm h), if_neg (Ne.symm h)]
  by_cases hreview_report : k2 = kReviewReport
  · subst hreview_report
    rw [show setField s kReviewReport v = { s with review_report := v } from rfl]
    unfold getField
    rw [if_neg (Ne.symm h), if_neg (Ne.symm h)]
  by_cases hcreated_at : k2 = kCreatedAt
  · subst hcreated_at
    rw [show setField s kCreatedAt v = { s with created_at := v } from rfl]
    unfold getField
    rw [if_neg (Ne.symm h), if_neg (Ne.symm h)]
  by_cases hupdated_at : k2 = kUpdatedAt
  · subst hupdated_at
    rw [show setField s kUpdatedAt v = { s with updated_at := v } from rfl]
    unfold getField
    rw [if_neg (Ne.symm h), if_neg (Ne.symm h)]
  rw [setField_not_field (by simp [fieldKeys, hsource_file, hcurrent_agent,
    hcheckpoint_file, hretry_count, herrors, hcompleted_agents, hraw_text,
    hstructured_v0, hstructured_v1, hdb_ready, hreview_report, hcreated_at,
    hupdated_at])]

theorem from_dict_filter_go (now : List Char) :
    ∀ (data : List (List Char × J)) (s : PipelineState),
      data.foldl (fun s kv => setField s kv.1 kv.2) s =
      (data.filter (fun kv => decide (kv.1 ∈ fieldKeys))).foldl
        (fun s kv => setField s kv.1 kv.2) s := by
  intro data
  induction data with
  | nil => intro s; rfl
  | cons kv tl ih =>
    intro s
    by_cases h : kv.1 ∈ fieldKeys
    · simp [List.filter_cons, h, ih]
    · simp [List.filter_cons, h, ih, setField_not_field h]

theorem getField_foldl_ne (k : List Char) :
    ∀ (data : List (List Char × J)) (s : PipelineState),
      (∀ kv ∈ data, kv.1 ≠ k) →
      getField (data.foldl (fun s kv => setField s kv.1 kv.2) s) k = getField s k := by
  intro data
  induction data with
  | nil => intro s _; rfl
  | cons kv tl ih =>
    intro s h
    simp only [List.foldl_cons]
    rw [ih _ fun x hx => h x (List.mem_cons_of_mem kv hx),
      getField_setField_ne (h kv (by simp))]

/-- C10: PipelineState.from_dict is total — a guarded setattr per item,
no key or value can make it raise — and tolerant: items whose key names
no dataclass field are ignored (dropping them changes nothing), and a
field named by no item keeps its default value.  (hasattr also answers
true for the class attributes to_dict / from_dict; such keys set a
shadowing instance attribute and likewise leave every field unchanged.) -/
theorem from_dict_tolerates_keys (now : List Char) (data : List (List Char × J)) :
    PipelineState.from_dict now data =
      PipelineState.from_dict now (data.filter (fun kv => decide (kv.1 ∈ fieldKeys))) ∧
    ∀ k, k ∈ fieldKeys → (∀ kv ∈ data, kv.1 ≠ k) →
      getField (PipelineState.from_dict now data) k = getField (initState now) k := by
  constructor
  · exact from_dict_filter_go now data (initState now)
  · intro k _ h
    exact getField_foldl_ne k data (initState now) h

/-- Witness for C10 at a concrete dict with an unknown key only. -/
theorem from_dict_tolerates_keys_witness :
    getField (PipelineState.from_dict [] [("bogus".data, J.num 1)]) kRetryCount
      = getField (initState []) kRetryCount ∧
    PipelineState.from_dict [] [("bogus".data, J.num 1)] =
      PipelineState.from_dict []
        (([(("bogus".data : List Char), J.num 1)]).filter
          (fun kv => decide (kv.1 ∈ fieldKeys))) :=
  ⟨(from_dict_tolerates_keys [] [("bogus".data, J.num 1)]).2 kRetryCount
      (by decide) (by decide),
   (from_dict_tolerates_keys [] [("bogus".data, J.num 1)]).1⟩

/-!
Frame lemmas for the orchestrator: which PipelineState fields each
operation can touch.
-/

theorem stageOutput_congr {s s2 : PipelineState}
    (h0 : s2.structured_v0 = s.structured_v0)
    (h1 : s2.structured_v1 = s.structured_v1)
    (h2 : s2.db_ready = s.db_ready)
    (h3 : s2.review_report = s.review_report) (name : List Char) :
    stageOutput s2 name = stageOutput s name := by
  unfold stageOutput
  split_ifs <;> simp [h0, h1, h2, h3]

theorem save_checkpoint_frame (hasDir : Bool) (s : PipelineState)
    (f now : List Char) :
    (save_checkpoint hasDir s f now).1.completed_agents = s.completed_agents ∧
    (save_checkpoint hasDir s f now).1.errors = s.errors ∧
    (save_checkpoint hasDir s f now).1.structured_v0 = s.structured_v0 ∧
    (save_checkpoint hasDir s f now).1.structured_v1 = s.structured_v1 ∧
    (save_checkpoint hasDir s f now).1.db_ready = s.db_ready ∧
    (save_checkpoint hasDir s f now).1.review_report = s.review_report := by
  cases hasDir <;> simp [save_checkpoint]

theorem setOutput_frame (s : PipelineState) (name : List Char) (r : J) :
    (setOutput s name r).completed_agents = s.completed_agents ∧
    (setOutput s name r).errors = s.errors := by
  unfold setOutput
  split_ifs <;> simp

theorem stageOutput_setOutput_self {s : PipelineState} {name : List Char}
    (h : name ∈ AGENT_ORDER) (r : J) :
    stageOutput (setOutput s name r) name = r := by
  simp only [AGENT_ORDER, List.mem_cons, List.not_mem_nil, or_false] at h
  rcases h with rfl | rfl | rfl | rfl <;> rfl

theorem stageOutput_setOutput_ne {s : PipelineState} {name name2 : List Char}
    (h1 : name ∈ AGENT_ORDER) (h2 : name2 ∈ AGENT_ORDER) (h : name2 ≠ name)
    (r : J) :
    stageOutput (setOutput s name r) name2 = stageOutput s name2 := by
  simp only [AGENT_ORDER, List.mem_cons, List.not_mem_nil, or_false] at h1 h2
  rcases h1 with rfl | rfl | rfl | rfl <;> rcases h2 with rfl | rfl | rfl | rfl <;>
    first | (exact absurd rfl h) | rfl

/-- The retry loop of _execute_agent: it never touches completed_agents,
only ever appends to errors, writes no stage output at all when it
fails, and on success writes exactly its own stage's output — carrying
a literal True success marker whenever the environment returns
boolean-marked results — leaving every other stage output alone. -/
theorem execute_agent_loop_spec (env : Env) (hasDir : Bool)
    (now name : List Char) (henv : envOk env) :
    ∀ remaining attempt s tr,
      (execute_agent_loop env hasDir now name attempt remaining s tr).2.1.completed_agents
        = s.completed_agents ∧
      (∀ l, s.errors = J.arr l → ∃ l2,
        (execute_agent_loop env hasDir now name attempt remaining s tr).2.1.errors
          = J.arr (l ++ l2)) ∧
      ((execute_agent_loop env hasDir now name attempt remaining s tr).1 = false →
        ∀ n2, stageOutput
          (execute_agent_loop env hasDir now name attempt remaining s tr).2.1 n2
            = stageOutput s n2) ∧
      ((execute_agent_loop env hasDir now name attempt remaining s tr).1 = true →
        name ∈ AGENT_ORDER →
        pyGetOpt (stageOutput
          (execute_agent_loop env hasDir now name attempt remaining s tr).2.1 name)
            kSuccess = some (J.bool true) ∧
        ∀ n2 ∈ AGENT_ORDER, n2 ≠ name →
          stageOutput
            (execute_agent_loop env hasDir now name attempt remaining s tr).2.1 n2
              = stageOutput s n2) := by
  intro remaining
  induction remaining with
  | zero =>
    intro attempt s tr
    exact ⟨rfl, fun l hl => ⟨[], by simp [execute_agent_loop, hl]⟩,
      fun _ n2 => rfl, fun h => absurd h (by simp [execute_agent_loop])⟩
  | succ m ih =>
    intro attempt s tr
    simp only [execute_agent_loop]
    rcases hcall : env name attempt
        (stageInput { s with retry_count := J.num ((attempt : Int) + 1) } name)
      with r | msg
    · by_cases ht : truthyOpt (pyGetOpt r kSuccess) = true
      · simp only [ht, if_true]
        have hmarker : pyGetOpt r kSuccess = some (J.bool true) := by
          rcases henv name attempt _ r hcall with hm | hm
          · exact hm
          · rw [hm] at ht
            simp [truthyOpt, truthy] at ht
        refine ⟨?_, ?_, ?_, ?_⟩
        · rw [(save_checkpoint_frame _ _ _ _).1, (setOutput_frame _ _ _).1]
        · intro l hl
          refine ⟨[], ?_⟩
          rw [(save_checkpoint_frame _ _ _ _).2.1, (setOutput_frame _ _ _).2]
          simpa using hl
        · intro hfalse
          exact absurd hfalse (by simp)
        · intro _ hname
          have hsave := save_checkpoint_frame hasDir
            (setOutput { s with retry_count := J.num ((attempt : Int) + 1) } name r)
            (checkpointName name) now
          constructor
          · rw [stageOutput_congr hsave.2.2.1 hsave.2.2.2.1 hsave.2.2.2.2.1
              hsave.2.2.2.2.2 name]
            rw [stageOutput_setOutput_self hname r, hmarker]
          · intro n2 hn2 hne
            rw [stageOutput_congr hsave.2.2.1 hsave.2.2.2.1 hsave.2.2.2.2.1
              hsave.2.2.2.2.2 n2]
            rw [stageOutput_setOutput_ne hname hn2 hne r]
            exact stageOutput_congr rfl rfl rfl rfl n2
      · simp only [Bool.not_eq_true] at ht
        simp only [ht, Bool.false_eq_true, if_false]
        by_cases hm : 0 < m
        · simp only [hm, if_true]
          have spec := ih (attempt + 1) { s with retry_count := J.num ((attempt : Int) + 1) }
            { tr with
              attempts := tr.attempts ++ [attempt]
              retryMsgs := tr.retryMsgs ++ [2 * 2 ^ attempt] }
          refine ⟨spec.1, ?_, ?_, ?_⟩
          · intro l hl
            exact spec.2.1 l hl
          · intro hf n2
            rw [spec.2.2.1 hf n2]
            exact stageOutput_congr rfl rfl rfl rfl n2
          · intro htrue hname
            refine ⟨(spec.2.2.2 htrue hname).1, ?_⟩
            intro n2 hn2 hne
            rw [(spec.2.2.2 htrue hname).2 n2 hn2 hne]
            exact stageOutput_congr rfl rfl rfl rfl n2
        · simp only [hm, if_false]
          exact ⟨by simp, fun l hl => ⟨[], by simpa using hl⟩,
            fun _ n2 => stageOutput_congr rfl rfl rfl rfl n2,
            fun h => absurd h (by simp)⟩
    · by_cases hm : 0 < m
      · simp only [hm, if_true]
        have spec := ih (attempt + 1)
          { s with
            retry_count := J.num ((attempt : Int) + 1)
            errors := pushJ s.errors (J.str (name ++ ": ".data ++ msg)) }
          { tr with
            attempts := tr.attempts ++ [attempt]
            retryMsgs := tr.retryMsgs ++ [2 * 2 ^ attempt] }
        refine ⟨spec.1, ?_, ?_, ?_⟩
        · intro l hl
          obtain ⟨l2, hl2⟩ := spec.2.1 (l ++ [J.str (name ++ ": ".data ++ msg)])
            (by simp [hl, pushJ])
          exact ⟨[J.str (name ++ ": ".data ++ msg)] ++ l2, by
            rw [hl2, List.append_assoc]⟩
        · intro hf n2
          rw [spec.2.2.1 hf n2]
          exact stageOutput_congr rfl rfl rfl rfl n2
        · intro htrue hname
          refine ⟨(spec.2.2.2 htrue hname).1, ?_⟩
          intro n2 hn2 hne
          rw [(spec.2.2.2 htrue hname).2 n2 hn2 hne]
          exact stageOutput_congr rfl rfl rfl rfl n2
      · simp only [hm, if_false]
        refine ⟨by simp, ?_, fun _ n2 => stageOutput_congr rfl rfl rfl rfl n2,
          fun h => absurd h (by simp)⟩
        intro l hl
        exact ⟨[J.str (name ++ ": ".data ++ msg)], by simp [hl, pushJ]⟩

/-- The stage loop of run_pipeline, over any duplicate-free suffix of
stage names drawn from the fixed order: on success the completed list
grows by exactly the names in order, on failure by the prefix before
the failing stage with a fresh diagnostic appended to errors, and every
name in the final completed list has a stage output carrying a literal
True success marker. -/
theorem run_stages_spec (env : Env) (hasDir : Bool) (now : List Char)
    (henv : envOk env) :
    ∀ (names : List (List Char)) (s : PipelineState) (done l : List J),
      (∀ n ∈ names, n ∈ AGENT_ORDER) → names.Nodup →
      (∀ n, J.str n ∈ done → n ∉ names) →
      s.completed_agents = J.arr done → s.errors = J.arr l →
      (∀ n, n ∈ AGENT_ORDER → n ∉ names → J.str n ∈ done →
        pyGetOpt (stageOutput s n) kSuccess = some (J.bool true)) →
      ((run_pipeline_stages env hasDir now names s).1 = true →
        (run_pipeline_stages env hasDir now names s).2.completed_agents
          = J.arr (done ++ names.map J.str)) ∧
      ((run_pipeline_stages env hasDir now names s).1 = false →
        ∃ k, k < names.length ∧
          (run_pipeline_stages env hasDir now names s).2.completed_agents
            = J.arr (done ++ (names.take k).map J.str) ∧
          ∃ l2, (run_pipeline_stages env hasDir now names s).2.errors
            = J.arr (l ++ l2) ∧ l2 ≠ []) ∧
      (∀ n, n ∈ AGENT_ORDER →
        J.str n ∈ jItems (run_pipeline_stages env hasDir now names s).2.completed_agents →
        pyGetOpt (stageOutput (run_pipeline_stages env hasDir now names s).2 n) kSuccess
          = some (J.bool true)) := by
  intro names
  induction names with
  | nil =>
    intro s done l _ _ _ hcomp herr hmark
    refine ⟨fun _ => by simpa [run_pipeline_stages] using hcomp,
      fun h => by simp [run_pipeline_stages] at h, ?_⟩
    intro n hn hmem
    simp only [run_pipeline_stages] at hmem
    rw [hcomp] at hmem
    exact hmark n hn (by simp) hmem
  | cons name tail ih =>
    intro s done l hsub hnodup hdisj hcomp herr hmark
    have hnameA : name ∈ AGENT_ORDER := hsub name (by simp)
    have hnametail : name ∉ tail := (List.nodup_cons.mp hnodup).1
    have htailnodup : tail.Nodup := (List.nodup_cons.mp hnodup).2
    simp only [run_pipeline_stages, execute_agent]
    have spec := execute_agent_loop_spec env hasDir now name henv MAX_RETRIES 0
      { s with current_agent := J.str name, retry_count := J.num 0 } ⟨[], [], []⟩
    by_cases hr : (execute_agent_loop env hasDir now name 0 MAX_RETRIES
        { s with current_agent := J.str name, retry_count := J.num 0 }
        ⟨[], [], []⟩).1 = true
    · simp only [hr, if_true]
      have hcomp1 : (execute_agent_loop env hasDir now name 0 MAX_RETRIES
          { s with current_agent := J.str name, retry_count := J.num 0 }
          ⟨[], [], []⟩).2.1.completed_agents = J.arr done := by
        rw [spec.1]; exact hcomp
      obtain ⟨l2, herr1⟩ := spec.2.1 l herr
      have hmk := spec.2.2.2 hr hnameA
      have hnext := ih
        { (execute_agent_loop env hasDir now name 0 MAX_RETRIES
            { s with current_agent := J.str name, retry_count := J.num 0 }
            ⟨[], [], []⟩).2.1 with
          completed_agents := pushJ (execute_agent_loop env hasDir now name 0 MAX_RETRIES
            { s with current_agent := J.str name, retry_count := J.num 0 }
            ⟨[], [], []⟩).2.1.completed_agents (J.str name) }
        (done ++ [J.str name]) (l ++ l2)
        (fun n hn => hsub n (List.mem_cons_of_mem name hn))
        htailnodup
        (by
          intro n hn
          rcases List.mem_append.mp hn with hn | hn
          · exact fun hmemtail => hdisj n hn (List.mem_cons_of_mem name hmemtail)
          · have : n = name := by
              simp only [List.mem_singleton] at hn
              injection hn
            subst this
            exact hnametail)
        (by simp [hcomp1, pushJ])
        (by simpa using herr1)
        (by
          intro n hn hntail hmem
          have hout : stageOutput
              { (execute_agent_loop env hasDir now name 0 MAX_RETRIES
                  { s with current_agent := J.str name, retry_count := J.num 0 }
                  ⟨[], [], []⟩).2.1 with
                completed_agents := pushJ (execute_agent_loop env hasDir now name 0 MAX_RETRIES
                  { s with current_agent := J.str name, retry_count := J.num 0 }
                  ⟨[], [], []⟩).2.1.completed_agents (J.str name) } n
              = stageOutput (execute_agent_loop env hasDir now name 0 MAX_RETRIES
                  { s with current_agent := J.str name, retry_count := J.num 0 }
                  ⟨[], [], []⟩).2.1 n :=
            stageOutput_congr rfl rfl rfl rfl n
          rw [hout]
          rcases List.mem_append.mp hmem with hd | hsing
          · have hne : n ≠ name := by
              intro heq
              subst heq
              exact hdisj n hd (by simp)
            rw [hmk.2 n hn hne]
            have : stageOutput { s with current_agent := J.str name, retry_count := J.num 0 } n
                = stageOutput s n := stageOutput_congr rfl rfl rfl rfl n
            rw [this]
            refine hmark n hn ?_ hd
            intro hx
            rcases List.mem_cons.mp hx with hx | hx
            · exact hne hx
            · exact hntail hx
          · have : n = name := by
              simp only [List.mem_singleton] at hsing
              injection hsing
            subst this
            exact hmk.1)
      refine ⟨?_, ?_, ?_⟩
      · intro htrue
        rw [hnext.1 htrue]
        simp
      · intro hfalse
        obtain ⟨k, hk, hkc, l3, hl3, hl3ne⟩ := hnext.2.1 hfalse
        refine ⟨k + 1, by simpa using Nat.succ_lt_succ hk, ?_, ?_⟩
        · rw [hkc]; simp
        · exact ⟨l2 ++ l3, by rw [hl3, List.append_assoc], by simp [hl3ne]⟩
      · exact hnext.2.2
    · simp only [Bool.not_eq_true] at hr
      simp only [hr, Bool.false_eq_true, if_false]
      obtain ⟨l2, herr1⟩ := spec.2.1 l herr
      have houtall := spec.2.2.1 hr
      have hsave := save_checkpoint_frame hasDir
        { (execute_agent_loop env hasDir now name 0 MAX_RETRIES
            { s with current_agent := J.str name, retry_count := J.num 0 }
            ⟨[], [], []⟩).2.1 with
          errors := pushJ (execute_agent_loop env hasDir now name 0 MAX_RETRIES
            { s with current_agent := J.str name, retry_count := J.num 0 }
            ⟨[], [], []⟩).2.1.errors (J.str (agentFailedMsg name)) }
        (failedCheckpointName name) now
      refine ⟨fun h => by simp at h, ?_, ?_⟩
      · intro _
        refine ⟨0, by simp, ?_, ?_⟩
        · rw [hsave.1]
          simpa using (spec.1.trans hcomp)
        · refine ⟨l2 ++ [J.str (agentFailedMsg name)], ?_, by simp⟩
          rw [hsave.2.1]
          simp only [herr1, pushJ, List.append_assoc]
      · intro n hn hmem
        rw [hsave.1] at hmem
        simp only [jItems] at hmem
        rw [spec.1] at hmem
        rw [hcomp] at hmem
        have hnotin : n ∉ (name :: tail) := by
          intro hcontra
          exact hdisj n hmem hcontra
        have hmid1 : stageOutput
            { (execute_agent_loop env hasDir now name 0 MAX_RETRIES
                { s with current_agent := J.str name, retry_count := J.num 0 }
                ⟨[], [], []⟩).2.1 with
              errors := pushJ (execute_agent_loop env hasDir now name 0 MAX_RETRIES
                { s with current_agent := J.str name, retry_count := J.num 0 }
                ⟨[], [], []⟩).2.1.errors (J.str (agentFailedMsg name)) } n
            = stageOutput (execute_agent_loop env hasDir now name 0 MAX_RETRIES
                { s with current_agent := J.str name, retry_count := J.num 0 }
                ⟨[], [], []⟩).2.1 n :=
          stageOutput_congr rfl rfl rfl rfl n
        have hmid2 : stageOutput
            { s with current_agent := J.str name, retry_count := J.num 0 } n
            = stageOutput s n := stageOutput_congr rfl rfl rfl rfl n
        have hout2 : stageOutput (save_checkpoint hasDir
            { (execute_agent_loop env hasDir now name 0 MAX_RETRIES
                { s with current_agent := J.str name, retry_count := J.num 0 }
                ⟨[], [], []⟩).2.1 with
              errors := pushJ (execute_agent_loop env hasDir now name 0 MAX_RETRIES
                { s with current_agent := J.str name, retry_count := J.num 0 }
                ⟨[], [], []⟩).2.1.errors (J.str (agentFailedMsg name)) }
            (failedCheckpointName name) now).1 n
            = stageOutput s n := by
          rw [stageOutput_congr hsave.2.2.1 hsave.2.2.2.1 hsave.2.2.2.2.1
            hsave.2.2.2.2.2 n, hmid1, houtall n, hmid2]
        rw [hout2]
        exact hmark n hn hnotin hmem

/-- The failure handler's events and sleeps, computed: two retry logs
with backoffs 2 and 4 seconds, a step_error, an unsuccessful complete,
and exactly the sleeps 2 and 4 — and no stage invocation anywhere. -/
theorem handle_agent_error_eq (name : List Char) :
    handle_agent_error name =
      ([REvent.logE (retryLogMsg name 2), REvent.logE (retryLogMsg name 4),
        REvent.stepError name, REvent.completeE false], [2, 4]) := rfl

/-- Case analysis for one runner stage: the agent function runs exactly
once; on failure the handler's events and sleeps are appended and the
run stops as a failure, on success the continuation receives the
checkpointed state and a trace with the same sleeps. -/
theorem runnerStage_spec (env : RunnerEnv) (now name cp : List Char)
    (store : PipelineState → J → PipelineState) (input : PipelineState → J)
    (s : PipelineState) (tr : STrace)
    (next : PipelineState → STrace → Bool × PipelineState × STrace)
    (P : Bool × PipelineState × STrace → Prop)
    (hfail : ∀ tr2 : STrace, tr2.agentCalls = tr.agentCalls ++ [name] →
      tr2.sleeps = tr.sleeps ++ [2, 4] →
      REvent.logE (retryLogMsg name 2) ∈ tr2.events →
      REvent.logE (retryLogMsg name 4) ∈ tr2.events →
      P (false, s, tr2))
    (hok : ∀ (s2 : PipelineState) (tr2 : STrace),
      tr2.agentCalls = tr.agentCalls ++ [name] → tr2.sleeps = tr.sleeps →
      P (next s2 tr2)) :
    P (runnerStage env now name cp store input s tr next) := by
  unfold runnerStage
  by_cases h : truthyOpt (pyGetOpt (env.result name (input s)) kSuccess) = true
  · simp only [h, if_true]
    exact hok _ _ rfl rfl
  · simp only [Bool.not_eq_true] at h
    simp only [h, Bool.false_eq_true, if_false]
    exact hfail _ rfl (by simp [handle_agent_error_eq])
      (by simp [handle_agent_error_eq]) (by simp [handle_agent_error_eq])

/-- C7: in event-driven/server mode a failed stage is never re-invoked.
Every run calls each stage's agent function at most once (the call list
is duplicate-free), and when a stage fails after a successful OCR step,
the failure handler emits the retry-backoff progress logs for 2 and 4
seconds and sleeps exactly through that backoff schedule, while the
failed stage itself was dispatched exactly once. -/
theorem server_failed_stage_never_reinvoked (env : RunnerEnv)
    (now : List Char) (s0 : PipelineState) :
    (runServer env now s0).2.2.agentCalls.Nodup ∧
    (∀ name, (runServer env now s0).2.2.agentCalls.count name ≤ 1) ∧
    ((runServer env now s0).1 = false → env.ocrOk = true →
      ∃ name, REvent.logE (retryLogMsg name 2) ∈ (runServer env now s0).2.2.events ∧
        REvent.logE (retryLogMsg name 4) ∈ (runServer env now s0).2.2.events ∧
        (runServer env now s0).2.2.sleeps = [2, 4] ∧
        (runServer env now s0).2.2.agentCalls.count name = 1) := by
  have hc1 : ∀ l : List (List Char), l.Nodup → ∀ name, l.count name ≤ 1 := by
    intro l
    induction l with
    | nil => intro _ name; simp
    | cons a t ih =>
      intro h name
      rcases List.nodup_cons.mp h with ⟨ha, ht⟩
      rw [List.count_cons]
      by_cases he : a = name
      · subst he
        rw [List.count_eq_zero_of_not_mem ha]
        simp
      · simpa [he] using ih ht name
  by_cases hocr : env.ocrOk = true
  case neg =>
    simp only [Bool.not_eq_true] at hocr
    refine ⟨?_, ?_, ?_⟩ <;> simp [runServer, hocr]
  case pos =>
    suffices hs :
        (runServer env now s0).2.2.agentCalls.Nodup ∧
        (∀ name, (runServer env now s0).2.2.agentCalls.count name ≤ 1) ∧
        ((runServer env now s0).1 = false →
          ∃ name,
            REvent.logE (retryLogMsg name 2) ∈ (runServer env now s0).2.2.events ∧
            REvent.logE (retryLogMsg name 4) ∈ (runServer env now s0).2.2.events ∧
            (runServer env now s0).2.2.sleeps = [2, 4] ∧
            (runServer env now s0).2.2.agentCalls.count name = 1) by
      exact ⟨hs.1, hs.2.1, fun hf _ => hs.2.2 hf⟩
    unfold runServer
    simp only [hocr, if_true]
    apply runnerStage_spec (P := fun r =>
      r.2.2.agentCalls.Nodup ∧ (∀ name, r.2.2.agentCalls.count name ≤ 1) ∧
      (r.1 = false → ∃ name,
        REvent.logE (retryLogMsg name 2) ∈ r.2.2.events ∧
        REvent.logE (retryLogMsg name 4) ∈ r.2.2.events ∧
        r.2.2.sleeps = [2, 4] ∧ r.2.2.agentCalls.count name = 1))
    · intro tr2 hcalls hsleeps hm2 hm4
      refine ⟨?_, ?_, fun _ => ⟨kStructuring, hm2, hm4, by simp [hsleeps], ?_⟩⟩ <;>
        simp only [hcalls, hsleeps]
      · decide
      · exact hc1 _ (by decide)
      · decide
    · intro s2 tr2 hcalls hsleeps
      apply runnerStage_spec (P := fun r =>
      r.2.2.agentCalls.Nodup ∧ (∀ name, r.2.2.agentCalls.count name ≤ 1) ∧
      (r.1 = false → ∃ name,
        REvent.logE (retryLogMsg name 2) ∈ r.2.2.events ∧
        REvent.logE (retryLogMsg name 4) ∈ r.2.2.events ∧
        r.2.2.sleeps = [2, 4] ∧ r.2.2.agentCalls.count name = 1))
      · intro tr3 hcalls3 hsleeps3 hm2 hm4
        refine ⟨?_, ?_, fun _ => ⟨kNormalization, hm2, hm4,
            by simp [hsleeps3, hsleeps], ?_⟩⟩ <;>
          simp only [hcalls3, hcalls, hsleeps3, hsleeps]
        · decide
        · exact hc1 _ (by decide)
        · decide
      · intro s3 tr3 hcalls3 hsleeps3
        apply runnerStage_spec (P := fun r =>
      r.2.2.agentCalls.Nodup ∧ (∀ name, r.2.2.agentCalls.count name ≤ 1) ∧
      (r.1 = false → ∃ name,
        REvent.logE (retryLogMsg name 2) ∈ r.2.2.events ∧
        REvent.logE (retryLogMsg name 4) ∈ r.2.2.events ∧
        r.2.2.sleeps = [2, 4] ∧ r.2.2.agentCalls.count name = 1))
        · intro tr4 hcalls4 hsleeps4 hm2 hm4
          refine ⟨?_, ?_, fun _ => ⟨kLayout, hm2, hm4,
              by simp [hsleeps4, hsleeps3, hsleeps], ?_⟩⟩ <;>
            simp only [hcalls4, hcalls3, hcalls, hsleeps4, hsleeps3, hsleeps]
          · decide
          · exact hc1 _ (by decide)
          · decide
        · intro s4 tr4 hcalls4 hsleeps4
          apply runnerStage_spec (P := fun r =>
      r.2.2.agentCalls.Nodup ∧ (∀ name, r.2.2.agentCalls.count name ≤ 1) ∧
      (r.1 = false → ∃ name,
        REvent.logE (retryLogMsg name 2) ∈ r.2.2.events ∧
        REvent.logE (retryLogMsg name 4) ∈ r.2.2.events ∧
        r.2.2.sleeps = [2, 4] ∧ r.2.2.agentCalls.count name = 1))
          · intro tr5 hcalls5 hsleeps5 hm2 hm4
            refine ⟨?_, ?_, fun _ => ⟨kHumanReview, hm2, hm4,
                by simp [hsleeps5, hsleeps4, hsleeps3, hsleeps], ?_⟩⟩ <;>
              simp only [hcalls5, hcalls4, hcalls3, hcalls, hsleeps5, hsleeps4,
                hsleeps3, hsleeps]
            · decide
            · exact hc1 _ (by decide)
            · decide
          · intro s5 tr5 hcalls5 hsleeps5
            refine ⟨?_, ?_, fun hf => absurd hf (by simp)⟩ <;>
              simp only [hcalls5, hcalls4, hcalls3, hcalls]
            · decide
            · exact hc1 _ (by decide)

/-- Witness for C7 at a concrete environment whose normalization stage
fails: the stage list shows structuring and normalization each called
once, the sleeps are the backoff schedule 2, 4, and normalization is
never re-invoked. -/
theorem server_failed_stage_witness :
    ((runServer
      ⟨true, "txt".data, fun name _ =>
        if name = kNormalization then J.obj [(kSuccess, J.bool false)]
        else J.obj [(kSuccess, J.bool true)]⟩
      [] (initState [])).1 = false) ∧
    (runServer
      ⟨true, "txt".data, fun name _ =>
        if name = kNormalization then J.obj [(kSuccess, J.bool false)]
        else J.obj [(kSuccess, J.bool true)]⟩
      [] (initState [])).2.2.agentCalls.count kNormalization ≤ 1 :=
  ⟨by decide,
   (server_failed_stage_never_reinvoked
     ⟨true, "txt".data, fun name _ =>
        if name = kNormalization then J.obj [(kSuccess, J.bool false)]
        else J.obj [(kSuccess, J.bool true)]⟩
     [] (initState [])).2.1 kNormalization⟩

/-- Witness for the amended C3 at a concrete environment and budget. -/
theorem rate_limit_terminal_witness :
    (call_with_retry (fun _ => HttpOutcome.resp 429 ("x".data) none) 3).2.1
      = some rateLimitMsg ∧
    (call_with_retry (fun _ => HttpOutcome.resp 429 ("x".data) none) 3).2.2.sleeps
      = [] :=
  ⟨(rate_limit_terminal_amended _ 3 _ none (by omega) rfl).2.1,
   (rate_limit_terminal_amended _ 3 _ none (by omega) rfl).2.2.2⟩

/-- C1: stage ordering invariant of the orchestrator pipeline.  Over
any environment whose agent results carry a boolean success marker,
starting from a state with empty completed_agents: on full success
completed_agents equals exactly the fixed four-stage order structuring,
normalization, layout, human_review; on permanent failure it equals
exactly the first k stage names for some k < 4 and errors is non-empty;
and every stage name in completed_agents got there only with that
stage's stored output carrying a literal True success marker. -/
theorem stage_ordering_invariant (env : Env) (hasDir : Bool)
    (now : List Char) (s0 : PipelineState) (l0 : List J)
    (henv : envOk env) (hc : s0.completed_agents = J.arr [])
    (he : s0.errors = J.arr l0) :
    ((run_pipeline env hasDir now s0).1 = true →
      (run_pipeline env hasDir now s0).2.completed_agents
        = J.arr (AGENT_ORDER.map J.str)) ∧
    ((run_pipeline env hasDir now s0).1 = false →
      ∃ k, k < 4 ∧
        (run_pipeline env hasDir now s0).2.completed_agents
          = J.arr ((AGENT_ORDER.take k).map J.str) ∧
        ∃ l, (run_pipeline env hasDir now s0).2.errors = J.arr l ∧ l ≠ []) ∧
    (∀ name ∈ AGENT_ORDER,
      J.str name ∈ jItems (run_pipeline env hasDir now s0).2.completed_agents →
      pyGetOpt (stageOutput (run_pipeline env hasDir now s0).2 name) kSuccess
        = some (J.bool true)) := by
  have h := run_stages_spec env hasDir now henv AGENT_ORDER s0 [] l0
    (fun n hn => hn) (by decide) (by simp) hc he (by simp)
  simp only [run_pipeline]
  refine ⟨fun ht => by simpa using h.1 ht, fun hf => ?_, ?_⟩
  · obtain ⟨k, hk, hkc, l2, hl2, hl2ne⟩ := h.2.1 hf
    exact ⟨k, hk, by simpa using hkc, l0 ++ l2, hl2, by simp [hl2ne]⟩
  · exact h.2.2

/-- Witness for C1: an environment whose agents always succeed with a
True marker drives the pipeline to full success with completed_agents
equal to the whole fixed stage order. -/
theorem stage_ordering_invariant_witness :
    (run_pipeline (fun _ _ _ => AgentOutcome.ok (J.obj [(kSuccess, J.bool true)]))
        false [] (initState [])).1 = true ∧
    (run_pipeline (fun _ _ _ => AgentOutcome.ok (J.obj [(kSuccess, J.bool true)]))
        false [] (initState [])).2.completed_agents
      = J.arr (AGENT_ORDER.map J.str) := by
  have h := stage_ordering_invariant
    (fun _ _ _ => AgentOutcome.ok (J.obj [(kSuccess, J.bool true)]))
    false [] (initState []) []
    (by
      intro name attempt inp r hr
      injection hr with hr
      subst hr
      left
      rfl)
    rfl rfl
  exact ⟨rfl, h.1 rfl⟩

/-- digitChar produces a decimal digit character. -/
theorem digitChar_isDigit (k : Nat) (h : k < 10) : (digitChar k).isDigit = true := by
  interval_cases k <;> decide

theorem digitChar_toNat (k : Nat) (h : k < 10) : (digitChar k).toNat = 48 + k := by
  interval_cases k <;> decide

/-- Every character printed by natDigitsF is a digit. -/
theorem natDigitsF_digits : ∀ fuel n c, n < 10 ^ fuel →
    c ∈ natDigitsF fuel n → c.isDigit = true := by
  intro fuel
  induction fuel with
  | zero =>
    intro n c hn hc
    simp [natDigitsF] at hc
  | succ f ih =>
    intro n c hn hc
    rw [natDigitsF.eq_def] at hc
    by_cases h10 : n < 10
    · simp only [h10, if_true, List.mem_singleton] at hc
      subst hc
      exact digitChar_isDigit n h10
    · simp only [h10, if_false, List.mem_append, List.mem_singleton] at hc
      rcases hc with hc | hc
      · exact ih (n / 10) c (by
          have : n < 10 ^ f * 10 := by
            rw [← pow_succ]
            exact hn
          omega) hc
      · subst hc
        exact digitChar_isDigit (n % 10) (Nat.mod_lt n (by omega))

/-- The digit string of natDigitsF is nonempty with a digit head, whose
leading digit is nonzero for positive n. -/
theorem natDigitsF_head : ∀ fuel n, n < 10 ^ fuel → 1 ≤ fuel →
    ∃ k tl, k < 10 ∧ (0 < n → k ≠ 0) ∧ natDigitsF fuel n = digitChar k :: tl := by
  intro fuel
  induction fuel with
  | zero => intro n _ h1; omega
  | succ f ih =>
    intro n hn _
    rw [natDigitsF.eq_def]
    by_cases h10 : n < 10
    · exact ⟨n, [], h10, by omega, by simp [h10]⟩
    · have hf : 1 ≤ f := by
        by_contra hf0
        have : f = 0 := by omega
        subst this
        simp at hn
        omega
      have hdiv : n / 10 < 10 ^ f := by
        have : n < 10 ^ f * 10 := by rw [← pow_succ]; exact hn
        omega
      obtain ⟨k, tl, hk, hk0, heq⟩ := ih (n / 10) hdiv hf
      refine ⟨k, tl ++ [digitChar (n % 10)], hk, fun _ => hk0 (by omega), ?_⟩
      simp [h10, heq]

theorem natDigits_head (n : Nat) :
    ∃ k tl, k < 10 ∧ (0 < n → k ≠ 0) ∧ natDigits n = digitChar k :: tl := by
  have hb : n < 10 ^ (n + 1) := by
    calc n < 10 ^ n := Nat.lt_pow_self (by norm_num) n
    _ ≤ 10 ^ (n + 1) := Nat.pow_le_pow_right (by omega) (by omega)
  exact natDigitsF_head (n + 1) n hb (by omega)

/-- Folding the decimal digits of n back into a number recovers n. -/
theorem foldl_natDigitsF : ∀ fuel n a, n < 10 ^ fuel →
    List.foldl (fun m c => 10 * m + (c.toNat - 48)) a (natDigitsF fuel n)
      = a * 10 ^ (natDigitsF fuel n).length + n := by
  intro fuel
  induction fuel with
  | zero =>
    intro n a hn
    have : n = 0 := by omega
    subst this
    simp [natDigitsF]
  | succ f ih =>
    intro n a hn
    rw [natDigitsF.eq_def]
    by_cases h10 : n < 10
    · simp only [h10, if_true, List.foldl_cons, List.foldl_nil, List.length_cons,
        List.length_nil]
      rw [digitChar_toNat n h10]
      simp
      omega
    · have hdiv : n / 10 < 10 ^ f := by
        have : n < 10 ^ f * 10 := by rw [← pow_succ]; exact hn
        omega
      simp only [h10, if_false, List.foldl_append, List.foldl_cons, List.foldl_nil,
        List.length_append, List.length_cons, List.length_nil]
      rw [ih (n / 10) a hdiv]
      rw [digitChar_toNat (n % 10) (Nat.mod_lt n (by omega))]
      have hmod := Nat.div_add_mod n 10
      rw [pow_succ]
      generalize (10 : Nat) ^ (natDigitsF f (n / 10)).length = B
      have : 48 + n % 10 - 48 = n % 10 := by omega
      rw [this]
      ring_nf
      omega

theorem natFromDigits_natDigits (n : Nat) : natFromDigits (natDigits n) = n := by
  have hb : n < 10 ^ (n + 1) := by
    calc n < 10 ^ n := Nat.lt_pow_self (by norm_num) n
    _ ≤ 10 ^ (n + 1) := Nat.pow_le_pow_right (by omega) (by omega)
  unfold natFromDigits natDigits
  rw [foldl_natDigitsF (n + 1) n 0 hb]
  simp

/-- A digit run followed by a number-safe continuation splits exactly at
the run's end under takeWhile/dropWhile isDigit. -/
theorem digits_split (ds rest : List Char) (hd : ∀ c ∈ ds, c.isDigit = true)
    (hr : numSafe rest = true) :
    (ds ++ rest).takeWhile Char.isDigit = ds ∧
    (ds ++ rest).dropWhile Char.isDigit = rest := by
  induction ds with
  | nil =>
    simp only [List.nil_append]
    cases rest with
    | nil => simp
    | cons c r =>
      simp only [numSafe, Bool.not_eq_true'] at hr
      have hcd : c.isDigit = false := by
        cases h : c.isDigit
        · rfl
        · rw [h] at hr; simp at hr
      simp [List.takeWhile_cons, List.dropWhile_cons, hcd]
  | cons c ds ih =>
    have hc : c.isDigit = true := hd c (by simp)
    have ih2 := ih (fun x hx => hd x (by simp [hx]))
    simp [List.takeWhile_cons, List.dropWhile_cons, hc, ih2.1, ih2.2]

theorem floatCont_of_numSafe (rest : List Char) (h : numSafe rest = true) :
    floatCont rest = false := by
  cases rest with
  | nil => rfl
  | cons c r =>
    simp only [numSafe, Bool.not_eq_true'] at h
    simp only [floatCont]
    cases hd : (c == '.' || c == 'e' || c == 'E')
    · rfl
    · rw [show (c.isDigit || c == '.' || c == 'e' || c == 'E')
          = (c.isDigit || (c == '.' || c == 'e' || c == 'E')) from by
            simp [Bool.or_assoc], hd] at h
      simp at h

/-- parseIntPart inverts the decimal printer before a number-safe
continuation. -/
theorem parseIntPart_rt (n : Nat) (rest : List Char) (hr : numSafe rest = true) :
    parseIntPart (natDigits n ++ rest) = some (n, rest) := by
  obtain ⟨k, tl, hk, hk0, heq⟩ := natDigits_head n
  by_cases hn0 : n = 0
  · subst hn0
    rw [show natDigits 0 = ['0'] from rfl]
    simp only [List.cons_append, List.nil_append, parseIntPart, if_true]
    rw [floatCont_of_numSafe rest hr]
    simp
  · have hkne : k ≠ 0 := hk0 (by omega)
    have hds : ∀ c ∈ natDigits n, c.isDigit = true := by
      intro c hc
      have hb : n < 10 ^ (n + 1) := by
        calc n < 10 ^ n := Nat.lt_pow_self (by norm_num) n
        _ ≤ 10 ^ (n + 1) := Nat.pow_le_pow_right (by omega) (by omega)
      exact natDigitsF_digits (n + 1) n c hb hc
    have hsplit := digits_split (natDigits n) rest hds hr
    rw [heq] at hsplit
    rw [heq]
    simp only [List.cons_append, parseIntPart]
    have hne0 : ¬(digitChar k = '0') := by
      interval_cases k
      · exact absurd rfl hkne
      all_goals decide
    rw [if_neg hne0, if_pos (digitChar_isDigit k hk)]
    rw [show digitChar k :: (tl ++ rest) = (digitChar k :: tl) ++ rest from rfl]
    rw [hsplit.1, hsplit.2]
    rw [floatCont_of_numSafe rest hr]
    simp only [if_false, Bool.false_eq_true]
    rw [← heq, natFromDigits_natDigits]

theorem hexVal_hexDigit (k : Nat) (h : k < 16) : hexVal (hexDigit k) = some k := by
  interval_cases k <;> decide

/-- parseStrBody inverts the string-body printer: decoding the escaped
characters up to the closing quote recovers the original characters and
leaves the trailing text untouched. -/
theorem parseStrBody_rt (s rest : List Char) :
    parseStrBody ((s.map escChar).flatten ++ dquote :: rest) = some (s, rest) := by
  induction s with
  | nil =>
    rw [parseStrBody.eq_def]
    simp +decide
  | cons c s ih =>
    simp only [List.map_cons, List.flatten_cons, List.append_assoc]
    by_cases h1 : c = dquote
    · subst h1
      rw [show escChar dquote = [bslash, dquote] from by decide]
      rw [parseStrBody.eq_def]
      simp +decide [ih]
    · by_cases h2 : c = bslash
      · subst h2
        rw [show escChar bslash = [bslash, bslash] from by decide]
        rw [parseStrBody.eq_def]
        simp +decide [ih]
      · by_cases h3 : c = '\n'
        · subst h3
          rw [show escChar '\n' = [bslash, 'n'] from by decide]
          rw [parseStrBody.eq_def]
          simp +decide [ih]
        · by_cases h4 : c = '\r'
          · subst h4
            rw [show escChar '\r' = [bslash, 'r'] from by decide]
            rw [parseStrBody.eq_def]
            simp +decide [ih]
          · by_cases h5 : c = '\t'
            · subst h5
              rw [show escChar '\t' = [bslash, 't'] from by decide]
              rw [parseStrBody.eq_def]
              simp +decide [ih]
            · by_cases h6 : c = Char.ofNat 8
              · subst h6
                rw [show escChar (Char.ofNat 8) = [bslash, 'b'] from by decide]
                rw [parseStrBody.eq_def]
                simp +decide [ih]
              · by_cases h7 : c = Char.ofNat 12
                · subst h7
                  rw [show escChar (Char.ofNat 12) = [bslash, 'f'] from by decide]
                  rw [parseStrBody.eq_def]
                  simp +decide [ih]
                · by_cases h8 : c.toNat < 32
                  · rw [show escChar c = [bslash, 'u', '0', '0',
                        hexDigit (c.toNat / 16), hexDigit (c.toNat % 16)] from by
                      simp [escChar, h1, h2, h3, h4, h5, h6, h7, h8]]
                    have hdec : decodeU '0' '0' (hexDigit (c.toNat / 16))
                        (hexDigit (c.toNat % 16)) = some c := by
                      unfold decodeU
                      rw [show hexVal '0' = some 0 from by decide]
                      rw [hexVal_hexDigit (c.toNat / 16) (by omega)]
                      rw [hexVal_hexDigit (c.toNat % 16) (by omega)]
                      simp only
                      rw [if_neg (by omega)]
                      rw [show 4096 * 0 + 256 * 0 + 16 * (c.toNat / 16) + c.toNat % 16
                          = c.toNat from by omega]
                      rw [Char.ofNat_toNat]
                    simp only [List.cons_append, List.nil_append]
                    rw [parseStrBody.eq_def]
                    simp +decide [ih, hdec]
                  · rw [show escChar c = [c] from by
                      simp [escChar, h1, h2, h3, h4, h5, h6, h7, h8]]
                    simp only [List.cons_append, List.nil_append]
                    rw [parseStrBody.eq_def]
                    simp [h1, h2, h8, ih]

theorem skipWs_wsFront (ws l : List Char) (h : ∀ c ∈ ws, isJsonWs c = true) :
    skipWs (ws ++ l) = skipWs l := by
  unfold skipWs
  rw [List.dropWhile_append]
  rw [List.dropWhile_eq_nil_iff.mpr (fun x hx => h x hx)]
  simp

theorem skipWs_cons (c : Char) (l : List Char) (h : isJsonWs c = false) :
    skipWs (c :: l) = c :: l := by
  simp [skipWs, List.dropWhile_cons, h]

theorem nlIndent_ws (d : Nat) : ∀ c ∈ '\n' :: indentOf d, isJsonWs c = true := by
  intro c hc
  rcases List.mem_cons.mp hc with rfl | hc
  · decide
  · rw [List.eq_of_mem_replicate hc]
    decide

/-- parseVal only inspects its input through skipWs, so an all-whitespace
prefix is invisible to it. -/
theorem parseVal_wsFront (fuel : Nat) (ws l : List Char)
    (h : ∀ c ∈ ws, isJsonWs c = true) :
    parseVal fuel (ws ++ l) = parseVal fuel l := by
  cases fuel with
  | zero => rfl
  | succ f =>
    rw [parseVal.eq_def, parseVal.eq_def]
    dsimp only
    rw [skipWs_wsFront ws l h]

theorem parseElems_wsFront (fuel : Nat) (ws l : List Char) (acc : List J)
    (h : ∀ c ∈ ws, isJsonWs c = true) :
    parseElems fuel (ws ++ l) acc = parseElems fuel l acc := by
  cases fuel with
  | zero => rfl
  | succ f =>
    rw [parseElems.eq_def, parseElems.eq_def]
    dsimp only
    rw [parseVal_wsFront f ws l h]

/-- The first character of a printed value: never whitespace and never a
closing bracket or brace. -/
theorem prVal_head (d : Nat) (v : J) :
    ∃ c tl, prVal d v = c :: tl ∧ isJsonWs c = false ∧
      ¬(c = cbrack) ∧ ¬(c = cbrace) := by
  cases v with
  | null => exact ⟨'n', _, rfl, by decide, by decide, by decide⟩
  | bool b => cases b
              · exact ⟨'f', _, rfl, by decide, by decide, by decide⟩
              · exact ⟨'t', _, rfl, by decide, by decide, by decide⟩
  | num i =>
    rw [show prVal d (J.num i) = prInt i from rfl]
    unfold prInt
    by_cases hi : i < 0
    · rw [if_pos hi]
      exact ⟨'-', _, rfl, by decide, by decide, by decide⟩
    · rw [if_neg hi]
      obtain ⟨k, tl, hk, _, heq⟩ := natDigits_head i.natAbs
      refine ⟨digitChar k, tl, heq, ?_, ?_, ?_⟩ <;> interval_cases k <;> decide
  | str s =>
    refine ⟨dquote, (s.map escChar).flatten ++ [dquote], ?_, by decide, by decide,
      by decide⟩
    rw [show prVal d (J.str s) = prStr s from rfl]
    rfl
  | arr l =>
    cases l with
    | nil => exact ⟨obrack, _, rfl, by decide, by decide, by decide⟩
    | cons x xs => exact ⟨obrack, _, rfl, by decide, by decide, by decide⟩
  | obj ms =>
    cases ms with
    | nil => exact ⟨obrace, _, rfl, by decide, by decide, by decide⟩
    | cons m ms => exact ⟨obrace, _, rfl, by decide, by decide, by decide⟩

/-- Inserting a fresh key into a Python dict appends it. -/
theorem insertKV_append (acc : List (List Char × J)) (k : List Char) (v : J)
    (h : k ∉ acc.map Prod.fst) :
    insertKV acc k v = acc ++ [(k, v)] := by
  induction acc with
  | nil => rfl
  | cons p r ih =>
    obtain ⟨k2, v2⟩ := p
    simp only [List.map_cons, List.mem_cons, not_or] at h
    rw [insertKV.eq_def]
    simp only
    rw [if_neg (fun hc => h.1 (Eq.symm hc)), ih h.2]
    rfl

theorem sizeV_pos (v : J) : 1 ≤ sizeV v := by
  cases v <;> simp [sizeV] <;> omega

/-- The size measure of a value never exceeds its printed length, so the
length-based fuel of json_loads covers the recursion depth. -/
theorem print_size : ∀ fuel : Nat,
    (∀ v d, sizeV v ≤ fuel → sizeV v ≤ (prVal d v).length) ∧
    (∀ xs d, sizeL xs ≤ fuel → sizeL xs ≤ (prElemsTail d xs).length) ∧
    (∀ ms d, sizeM ms ≤ fuel → sizeM ms ≤ (prMembersTail d ms).length) := by
  intro fuel
  induction fuel using Nat.strong_induction_on with
  | _ fuel IH =>
    refine ⟨?_, ?_, ?_⟩
    · intro v d hsz
      cases v with
      | null => simp [sizeV, prVal]
      | bool b => cases b <;> simp [sizeV, prVal]
      | num i =>
        obtain ⟨k, tl, _, _, heq⟩ := natDigits_head i.natAbs
        rw [show prVal d (J.num i) = prInt i from rfl]
        unfold prInt
        by_cases hi : i < 0
        · rw [if_pos hi, heq]
          simp [sizeV]
        · rw [if_neg hi, heq]
          simp [sizeV]
      | str s =>
        rw [show prVal d (J.str s) = prStr s from rfl]
        simp [sizeV, prStr]
      | arr l =>
        cases l with
        | nil => simp [sizeV, sizeL, prVal]
        | cons x xs =>
          have hx : sizeV x ≤ fuel - 2 := by
            simp only [sizeV, sizeL] at hsz
            omega
          have hxs : sizeL xs ≤ fuel - 2 := by
            simp only [sizeV, sizeL] at hsz
            omega
          have hfuel : fuel - 2 < fuel := by
            have h1 := sizeV_pos x
            simp only [sizeV, sizeL] at hsz
            omega
          have ihv := (IH (fuel - 2) hfuel).1 x (d + 1) hx
          have ihl := (IH (fuel - 2) hfuel).2.1 xs (d + 1) hxs
          rw [prVal.eq_def]
          simp only [sizeV, sizeL, List.length_cons, List.length_append]
          omega
      | obj ms =>
        cases ms with
        | nil => simp [sizeV, sizeM, prVal]
        | cons m ms =>
          obtain ⟨k, v⟩ := m
          have hv : sizeV v ≤ fuel - 2 := by
            simp only [sizeV, sizeM] at hsz
            omega
          have hms : sizeM ms ≤ fuel - 2 := by
            simp only [sizeV, sizeM] at hsz
            omega
          have hfuel : fuel - 2 < fuel := by
            have h1 := sizeV_pos v
            simp only [sizeV, sizeM] at hsz
            omega
          have ihv := (IH (fuel - 2) hfuel).1 v (d + 1) hv
          have ihm := (IH (fuel - 2) hfuel).2.2 ms (d + 1) hms
          rw [prVal.eq_def]
          simp only [sizeV, sizeM, prMember, List.length_cons, List.length_append]
          omega
    · intro xs d hsz
      cases xs with
      | nil => simp [sizeL, prElemsTail]
      | cons x xs =>
        have h1 := sizeV_pos x
        have hx : sizeV x ≤ fuel - 1 := by
          simp only [sizeL] at hsz
          omega
        have hxs : sizeL xs ≤ fuel - 1 := by
          simp only [sizeL] at hsz
          omega
        have hfuel : fuel - 1 < fuel := by
          simp only [sizeL] at hsz
          omega
        have ihv := (IH (fuel - 1) hfuel).1 x d hx
        have ihl := (IH (fuel - 1) hfuel).2.1 xs d hxs
        rw [prElemsTail.eq_def]
        simp only [sizeL, List.length_cons, List.length_append]
        omega
    · intro ms d hsz
      cases ms with
      | nil => simp [sizeM, prMembersTail]
      | cons m ms =>
        obtain ⟨k, v⟩ := m
        have h1 := sizeV_pos v
        have hv : sizeV v ≤ fuel - 1 := by
          simp only [sizeM] at hsz
          omega
        have hms : sizeM ms ≤ fuel - 1 := by
          simp only [sizeM] at hsz
          omega
        have hfuel : fuel - 1 < fuel := by
          simp only [sizeM] at hsz
          omega
        have ihv := (IH (fuel - 1) hfuel).1 v d hv
        have ihm := (IH (fuel - 1) hfuel).2.2 ms d hms
        rw [prMembersTail.eq_def]
        simp only [sizeM, prMember, List.length_cons, List.length_append]
        omega

theorem numSafe_head (c : Char) (l : List Char)
    (h : (c.isDigit || c == '.' || c == 'e' || c == 'E') = false) :
    numSafe (c :: l) = true := by
  simp only [numSafe, h]
  rfl

theorem skipWs_nl_indent (d : Nat) (l : List Char) :
    skipWs ('\n' :: (indentOf d ++ l)) = skipWs l := by
  rw [show ('\n' : Char) :: (indentOf d ++ l) = ('\n' :: indentOf d) ++ l from rfl]
  exact skipWs_wsFront _ _ (nlIndent_ws d)

theorem prMember_head (d : Nat) (m : List Char × J) :
    ∃ tl, prMember d m = dquote :: tl := by
  obtain ⟨k, v⟩ := m
  simp only [prMember, prStr, List.cons_append, List.append_assoc]
  exact ⟨_, rfl⟩

theorem numSafe_prMembersTail (d : Nat) (ms : List (List Char × J)) (L : List Char) :
    numSafe (prMembersTail d ms ++ '\n' :: L) = true := by
  cases ms with
  | nil =>
    rw [prMembersTail.eq_def]
    dsimp only
    exact numSafe_head _ _ (by decide)
  | cons p ps =>
    obtain ⟨k2, v2⟩ := p
    rw [prMembersTail.eq_def]
    dsimp only
    simp only [List.cons_append]
    exact numSafe_head _ _ (by decide)

theorem numSafe_prElemsTail (d : Nat) (xs : List J) (L : List Char) :
    numSafe (prElemsTail d xs ++ '\n' :: L) = true := by
  cases xs with
  | nil =>
    rw [prElemsTail.eq_def]
    dsimp only
    exact numSafe_head _ _ (by decide)
  | cons x xs =>
    rw [prElemsTail.eq_def]
    dsimp only
    simp only [List.cons_append]
    exact numSafe_head _ _ (by decide)

theorem parseVal_sp (fuel : Nat) (l : List Char) :
    parseVal fuel (' ' :: l) = parseVal fuel l := by
  rw [show (' ' : Char) :: l = [' '] ++ l from rfl]
  exact parseVal_wsFront fuel _ l (by
    intro c hc
    simp at hc
    subst hc
    decide)

theorem parseElems_nl_indent (fuel d : Nat) (l : List Char) (acc : List J) :
    parseElems fuel ('\n' :: (indentOf d ++ l)) acc = parseElems fuel l acc := by
  rw [show ('\n' : Char) :: (indentOf d ++ l) = ('\n' :: indentOf d) ++ l from rfl]
  exact parseElems_wsFront fuel _ l acc (nlIndent_ws d)

/-- The strict parser inverts the indent-2 printer: a printed value
followed by a number-safe continuation parses back to itself, and the
printed member/element tails close their object and array exactly at
the printed closing brace and bracket, provided the object keys are
duplicate-free at every level (Python dicts guarantee this). -/
theorem parse_print_rt : ∀ fuel : Nat,
    (∀ v d rest, wfJ v = true → sizeV v ≤ fuel → numSafe rest = true →
      parseVal fuel (prVal d v ++ rest) = some (v, rest)) ∧
    (∀ k v ms acc d d2 rest, wfJ v = true → wfM ms = true →
      (((acc ++ (k, v) :: ms).map Prod.fst).Nodup) →
      sizeM ((k, v) :: ms) ≤ fuel →
      parseMembers fuel
        (prMember d (k, v) ++ (prMembersTail d ms ++
          '\n' :: (indentOf d2 ++ cbrace :: rest))) acc
        = some (J.obj (acc ++ (k, v) :: ms), rest)) ∧
    (∀ x xs acc d d2 rest, wfJ x = true → wfL xs = true →
      sizeL (x :: xs) ≤ fuel →
      parseElems fuel
        (prVal d x ++ (prElemsTail d xs ++
          '\n' :: (indentOf d2 ++ cbrack :: rest))) acc
        = some (J.arr (acc ++ x :: xs), rest)) := by
  intro fuel
  induction fuel using Nat.strong_induction_on with
  | _ fuel IH =>
  refine ⟨?_, ?_, ?_⟩
  · intro v d rest hwf hsz hns
    obtain ⟨f, rfl⟩ : ∃ f, fuel = f + 1 := by
      have := sizeV_pos v
      cases fuel
      · omega
      · exact ⟨_, rfl⟩
    have hf : f < f + 1 := Nat.lt_succ_self f
    cases v with
    | null =>
      rw [show prVal d J.null ++ rest = 'n' :: 'u' :: 'l' :: 'l' :: rest from rfl]
      rw [parseVal.eq_def]
      dsimp only
      rw [skipWs_cons _ _ (by decide)]
      simp +decide
    | bool b =>
      cases b
      · rw [show prVal d (J.bool false) ++ rest
            = 'f' :: 'a' :: 'l' :: 's' :: 'e' :: rest from rfl]
        rw [parseVal.eq_def]
        dsimp only
        rw [skipWs_cons _ _ (by decide)]
        simp +decide
      · rw [show prVal d (J.bool true) ++ rest
            = 't' :: 'r' :: 'u' :: 'e' :: rest from rfl]
        rw [parseVal.eq_def]
        dsimp only
        rw [skipWs_cons _ _ (by decide)]
        simp +decide
    | num i =>
      by_cases hi : i < 0
      · rw [show prVal d (J.num i) = prInt i from rfl]
        rw [show prInt i = '-' :: natDigits i.natAbs from by
          unfold prInt
          rw [if_pos hi]]
        rw [List.cons_append]
        rw [parseVal.eq_def]
        dsimp only
        rw [skipWs_cons _ _ (by decide)]
        simp +decide [parseIntPart_rt i.natAbs rest hns]
        rw [abs_of_neg hi, neg_neg]
      · obtain ⟨k, tl, hk, hk0, heq⟩ := natDigits_head i.natAbs
        rw [show prVal d (J.num i) = prInt i from rfl]
        rw [show prInt i = natDigits i.natAbs from by
          unfold prInt
          rw [if_neg hi]]
        rw [heq, List.cons_append]
        rw [parseVal.eq_def]
        dsimp only
        rw [skipWs_cons _ _ (by interval_cases k <;> decide)]
        dsimp only
        rw [if_neg (show ¬(digitChar k = obrace) from by interval_cases k <;> decide)]
        rw [if_neg (show ¬(digitChar k = obrack) from by interval_cases k <;> decide)]
        rw [if_neg (show ¬(digitChar k = dquote) from by interval_cases k <;> decide)]
        rw [if_neg (show ¬(digitChar k = 't') from by interval_cases k <;> decide)]
        rw [if_neg (show ¬(digitChar k = 'f') from by interval_cases k <;> decide)]
        rw [if_neg (show ¬(digitChar k = 'n') from by interval_cases k <;> decide)]
        rw [if_neg (show ¬(digitChar k = '-') from by interval_cases k <;> decide)]
        rw [if_pos (digitChar_isDigit k hk)]
        rw [show digitChar k :: (tl ++ rest) = natDigits i.natAbs ++ rest from by
          rw [heq, List.cons_append]]
        rw [parseIntPart_rt i.natAbs rest hns]
        dsimp only
        rw [Int.natAbs_of_nonneg (not_lt.mp hi)]
    | str s =>
      rw [show prVal d (J.str s) = prStr s from rfl]
      simp only [prStr, List.cons_append, List.append_assoc, List.singleton_append]
      rw [parseVal.eq_def]
      dsimp only
      rw [skipWs_cons _ _ (by decide)]
      simp +decide [parseStrBody_rt]
    | arr l =>
      cases l with
      | nil =>
        rw [show prVal d (J.arr []) ++ rest = obrack :: cbrack :: rest from rfl]
        rw [parseVal.eq_def]
        dsimp only
        rw [skipWs_cons _ _ (by decide)]
        simp +decide [skipWs_cons]
      | cons x xs =>
        rw [wfJ.eq_def] at hwf
        dsimp only at hwf
        rw [wfL.eq_def] at hwf
        dsimp only at hwf
        rw [Bool.and_eq_true] at hwf
        rw [sizeV.eq_def] at hsz
        dsimp only at hsz
        rw [prVal.eq_def]
        dsimp only
        simp only [List.cons_append, List.append_assoc, List.singleton_append,
          List.nil_append]
        rw [parseVal.eq_def]
        dsimp only
        rw [skipWs_cons _ _ (by decide)]
        dsimp only
        rw [if_neg (show ¬(obrack = obrace) from by decide), if_pos rfl]
        rw [skipWs_nl_indent]
        obtain ⟨c0, tl0, heqx, hws0, hbk0, hbc0⟩ := prVal_head (d + 1) x
        rw [heqx, List.cons_append]
        rw [skipWs_cons _ _ hws0]
        dsimp only
        rw [if_neg hbk0]
        rw [← List.cons_append, ← heqx]
        rw [(IH f hf).2.2 x xs [] (d + 1) d rest hwf.1 hwf.2 (by omega)]
        simp
    | obj ms =>
      cases ms with
      | nil =>
        rw [show prVal d (J.obj []) ++ rest = obrace :: cbrace :: rest from rfl]
        rw [parseVal.eq_def]
        dsimp only
        rw [skipWs_cons _ _ (by decide)]
        simp +decide [skipWs_cons]
      | cons m ms =>
        obtain ⟨k, v⟩ := m
        rw [wfJ.eq_def] at hwf
        dsimp only at hwf
        rw [Bool.and_eq_true] at hwf
        have hnd := of_decide_eq_true hwf.1
        rw [wfM.eq_def] at hwf
        have hwm := hwf.2
        dsimp only at hwm
        rw [Bool.and_eq_true] at hwm
        rw [sizeV.eq_def] at hsz
        dsimp only at hsz
        rw [prVal.eq_def]
        dsimp only
        simp only [List.cons_append, List.append_assoc, List.singleton_append,
          List.nil_append]
        rw [parseVal.eq_def]
        dsimp only
        rw [skipWs_cons _ _ (by decide)]
        dsimp only
        rw [if_pos rfl]
        rw [skipWs_nl_indent]
        obtain ⟨tlm, heqm⟩ := prMember_head (d + 1) (k, v)
        rw [heqm, List.cons_append]
        rw [skipWs_cons _ _ (by decide)]
        dsimp only
        rw [if_neg (show ¬(dquote = cbrace) from by decide)]
        rw [← List.cons_append, ← heqm]
        rw [(IH f hf).2.1 k v ms [] (d + 1) d rest hwm.1 hwm.2
          (by rw [List.nil_append]; exact hnd) (by omega)]
        simp
  · intro k v ms acc d d2 rest hwv hwms hnd hsz
    obtain ⟨f, rfl⟩ : ∃ f, fuel = f + 1 := by
      rw [sizeM.eq_def] at hsz
      dsimp only at hsz
      cases fuel
      · omega
      · exact ⟨_, rfl⟩
    have hf : f < f + 1 := Nat.lt_succ_self f
    rw [sizeM.eq_def] at hsz
    dsimp only at hsz
    have hfresh : k ∉ acc.map Prod.fst := by
      intro hk
      have hnd2 := hnd
      rw [List.map_append] at hnd2
      have h2 := List.disjoint_of_nodup_append hnd2
      exact h2 hk (by rw [List.map_cons]; exact List.mem_cons_self _ _)
    simp only [prMember, prStr, List.cons_append, List.append_assoc,
      List.singleton_append]
    rw [parseMembers.eq_def]
    dsimp only
    rw [if_pos rfl]
    rw [parseStrBody_rt]
    dsimp only
    simp only [List.nil_append]
    rw [skipWs_cons _ _ (by decide)]
    simp +decide only []
    rw [parseVal_sp]
    rw [(IH f hf).1 v d _ hwv (by omega) (numSafe_prMembersTail d ms _)]
    dsimp only
    rw [insertKV_append acc k v hfresh]
    cases ms with
    | nil =>
      rw [prMembersTail.eq_def]
      dsimp only
      simp only [List.nil_append]
      rw [skipWs_nl_indent]
      rw [skipWs_cons _ _ (by decide)]
      simp +decide
    | cons m2 ms2 =>
      obtain ⟨k2, v2⟩ := m2
      rw [wfM.eq_def] at hwms
      dsimp only at hwms
      rw [Bool.and_eq_true] at hwms
      rw [sizeM.eq_def] at hsz
      dsimp only at hsz
      rw [prMembersTail.eq_def]
      dsimp only
      simp only [List.cons_append, List.append_assoc]
      rw [skipWs_cons _ _ (by decide)]
      simp +decide only []
      rw [skipWs_nl_indent]
      obtain ⟨tlm, heqm⟩ := prMember_head d (k2, v2)
      rw [heqm, List.cons_append]
      rw [skipWs_cons _ _ (by decide)]
      rw [← List.cons_append, ← heqm]
      rw [(IH f hf).2.1 k2 v2 ms2 (acc ++ [(k, v)]) d d2 rest hwms.1 hwms.2
        (by rw [List.append_assoc, List.singleton_append]; exact hnd)
        (by rw [sizeM.eq_def]; dsimp only; omega)]
      simp
  · intro x xs acc d d2 rest hwx hwxs hsz
    obtain ⟨f, rfl⟩ : ∃ f, fuel = f + 1 := by
      rw [sizeL.eq_def] at hsz
      dsimp only at hsz
      cases fuel
      · omega
      · exact ⟨_, rfl⟩
    have hf : f < f + 1 := Nat.lt_succ_self f
    rw [sizeL.eq_def] at hsz
    dsimp only at hsz
    rw [parseElems.eq_def]
    dsimp only
    rw [(IH f hf).1 x d _ hwx (by omega) (numSafe_prElemsTail d xs _)]
    dsimp only
    cases xs with
    | nil =>
      rw [prElemsTail.eq_def]
      dsimp only
      simp only [List.nil_append]
      rw [skipWs_nl_indent]
      rw [skipWs_cons _ _ (by decide)]
      simp +decide
    | cons y ys =>
      rw [wfL.eq_def] at hwxs
      dsimp only at hwxs
      rw [Bool.and_eq_true] at hwxs
      rw [sizeL.eq_def] at hsz
      dsimp only at hsz
      rw [prElemsTail.eq_def]
      dsimp only
      simp only [List.cons_append, List.append_assoc]
      rw [skipWs_cons _ _ (by decide)]
      simp +decide only []
      rw [parseElems_nl_indent]
      rw [(IH f hf).2.2 y ys (acc ++ [x]) d d2 rest hwxs.1 hwxs.2
        (by rw [sizeL.eq_def]; dsimp only; omega)]
      simp

/-- json.loads inverts json.dump (indent=2) on well-formed values. -/
theorem json_loads_prVal (v : J) (hwf : wfJ v = true) :
    json_loads (prVal 0 v) = some v := by
  have hsz := (print_size (sizeV v)).1 v 0 (le_refl _)
  have h := (parse_print_rt ((prVal 0 v).length + 1)).1 v 0 [] hwf (by omega) rfl
  rw [List.append_nil] at h
  unfold json_loads
  rw [h]
  rfl

/-- from_dict rebuilds exactly the state to_dict serialized. -/
theorem from_dict_to_dict (s : PipelineState) (now2 : List Char) :
    PipelineState.from_dict now2 s.to_dict = s := by
  cases s
  rfl

/-- A state of well-formed fields serializes to a well-formed object:
the thirteen field keys are distinct and every value is well-formed. -/
theorem wfJ_to_dict (s : PipelineState) (h : wfState s = true) :
    wfJ (J.obj s.to_dict) = true := by
  rw [wfJ.eq_def]
  rw [Bool.and_eq_true]
  unfold wfState at h
  simp only [Bool.and_eq_true] at h
  constructor
  · rw [decide_eq_true_eq]
    rw [show (s.to_dict.map Prod.fst)
        = [kSourceFile, kCurrentAgent, kCheckpointFile, kRetryCount, kErrors,
           kCompletedAgents, kRawText, kStructuredV0, kStructuredV1, kDbReady,
           kReviewReport, kCreatedAt, kUpdatedAt] from rfl]
    decide
  · rw [show wfM s.to_dict
        = (wfJ s.source_file && (wfJ s.current_agent && (wfJ s.checkpoint_file &&
          (wfJ s.retry_count && (wfJ s.errors && (wfJ s.completed_agents &&
          (wfJ s.raw_text && (wfJ s.structured_v0 && (wfJ s.structured_v1 &&
          (wfJ s.db_ready && (wfJ s.review_report && (wfJ s.created_at &&
          (wfJ s.updated_at && true))))))))))))) from rfl]
    simp only [Bool.and_eq_true]
    refine ⟨h.1.1.1.1.1.1.1.1.1.1.1.1, ?_⟩
    refine ⟨h.1.1.1.1.1.1.1.1.1.1.1.2, ?_⟩
    refine ⟨h.1.1.1.1.1.1.1.1.1.1.2, ?_⟩
    refine ⟨h.1.1.1.1.1.1.1.1.1.2, ?_⟩
    refine ⟨h.1.1.1.1.1.1.1.1.2, ?_⟩
    refine ⟨h.1.1.1.1.1.1.1.2, ?_⟩
    refine ⟨h.1.1.1.1.1.1.2, ?_⟩
    refine ⟨h.1.1.1.1.1.2, ?_⟩
    refine ⟨h.1.1.1.1.2, ?_⟩
    refine ⟨h.1.1.1.2, ?_⟩
    refine ⟨h.1.1.2, ?_⟩
    exact ⟨h.1.2, h.2, trivial⟩

/-- C8: resume round-trip.  For every state whose fields are
JSON-serializable (well-formed values with duplicate-free object keys,
as every Python run produces), saving a checkpoint and loading the
written contents back reconstructs a state field-for-field equal to the
state the save serialized — the passed state with its updated_at
refreshed, the single mutation save_checkpoint performs. -/
theorem resume_round_trip (s : PipelineState) (filename now now2 : List Char)
    (hwf : wfState s = true) :
    ∃ contents,
      (save_checkpoint true s filename now).2 = some (filename, contents) ∧
      load_checkpoint contents now2
        = some (save_checkpoint true s filename now).1 := by
  refine ⟨prVal 0 (J.obj ({ s with updated_at := J.str now }).to_dict),
    by simp [save_checkpoint], ?_⟩
  have hwf2 : wfState { s with updated_at := J.str now } = true := by
    unfold wfState at hwf ⊢
    simp only [Bool.and_eq_true] at hwf ⊢
    exact ⟨hwf.1, rfl⟩
  have hload := json_loads_prVal _ (wfJ_to_dict _ hwf2)
  unfold load_checkpoint
  rw [hload]
  dsimp only
  rw [from_dict_to_dict]
  simp [save_checkpoint]

/-- Witness for C8 at the freshly initialized state: the checkpoint
write-then-load round trip reproduces the saved state exactly. -/
theorem resume_round_trip_witness :
    wfState (initState "T0".data) = true ∧
    ∃ contents,
      (save_checkpoint true (initState "T0".data) "cp.json".data "T1".data).2
        = some ("cp.json".data, contents) ∧
      load_checkpoint contents "T2".data
        = some (save_checkpoint true (initState "T0".data) "cp.json".data
            "T1".data).1 :=
  ⟨by decide,
   resume_round_trip (initState "T0".data) "cp.json".data "T1".data "T2".data
     (by decide)⟩

end DataRefinery
